import Mathlib

/-!
Verification of the launchmat application-organizer core against its source.
The TypeScript source (applicationScanner.ts: ApplicationScanner and
StorageManager) is shallowly embedded: the key-value store is an explicit
Store record, asynchronous methods become pure state-passing functions on
Store, and timestamps (Date.now, new Date().toISOString()) are passed in as
explicit parameters. JSON serialization of the persisted records is modelled
structurally: a stored record is the structured value itself.
-/

namespace Launchmat

/-- Application record, mirroring the Application interface in types.ts.
Optional TypeScript fields become Option. -/
structure Application where
  id : String
  name : String
  bundleIdentifier : String
  path : String
  version : Option String
  icon : Option String
  category : Option String
  lastModified : String
  size : Option Nat
  deriving DecidableEq

/-- Folder record, mirroring the LaunchmatFolder interface in types.ts. -/
structure LaunchmatFolder where
  id : String
  name : String
  color : String
  icon : String
  applicationIds : List String
  position : Nat
  createdAt : String
  updatedAt : Option String := none
  deriving DecidableEq

/-- Settings record, mirroring the LaunchmatSettings interface in types.ts.
The applicationMappings object is modelled as an association list that keeps
JS-object key insertion order. -/
structure LaunchmatSettings where
  folders : List LaunchmatFolder
  applicationMappings : List (String × String)
  lastScanTime : String
  version : String
  deriving DecidableEq

/-- Association-list type for the app-id to folder-id mapping object. -/
abbrev Mappings := List (String × String)

/-- The four persisted keys of the store (launchmat_folders, launchmat_settings,
launchmat_app_mappings, launchmat_last_scan). A field holding none means the
key is absent from LocalStorage. -/
structure Store where
  folders : Option (List LaunchmatFolder)
  settings : Option LaunchmatSettings
  mappings : Option Mappings
  lastScan : Option String
  deriving DecidableEq

/-- Store with none of the four keys present. -/
def emptyStore : Store := ⟨none, none, none, none⟩

/-! ### Association-list operations with JS object semantics -/

/-- Assignment m[k] = v on a JS object: replace the value in place if the key
exists, otherwise append the new key at the end (insertion order). -/
def setMap : Mappings → String → String → Mappings
  | [], k, v => [(k, v)]
  | (k0, v0) :: rest, k, v =>
      if k0 = k then (k0, v) :: rest else (k0, v0) :: setMap rest k v

/-- Lookup m[k] on a JS object. -/
def getMap (m : Mappings) (k : String) : Option String :=
  (m.find? (fun p => p.1 = k)).map (fun p => p.2)

/-! ### ApplicationScanner.generateAppId -/

/-- UTF-8 encoding of one character, as Buffer.from(path) would produce. -/
def utf8EncodeChar (c : Char) : List Nat :=
  let n := c.toNat
  if n < 128 then [n]
  else if n < 2048 then [192 + n / 64, 128 + n % 64]
  else if n < 65536 then [224 + n / 4096, 128 + (n / 64) % 64, 128 + n % 64]
  else [240 + n / 262144, 128 + (n / 4096) % 64, 128 + (n / 64) % 64, 128 + n % 64]

/-- UTF-8 bytes of a string. -/
def utf8Bytes (s : String) : List Nat :=
  s.data.foldr (fun c acc => utf8EncodeChar c ++ acc) []

/-- Standard base64 alphabet. -/
def base64Alphabet : List Char :=
  "ABCDEFGHIJKLMNOPQRSTUVWXYZabcdefghijklmnopqrstuvwxyz0123456789+/".data

/-- Character for a 6-bit group. -/
def base64Char (n : Nat) : Char := base64Alphabet.getD n 'A'

/-- Base64 encoding with padding, as Buffer.toString with base64 produces. -/
def base64EncodeBytes : List Nat → List Char
  | [] => []
  | [b1] => [base64Char (b1 / 4), base64Char (b1 % 4 * 16), '=', '=']
  | [b1, b2] =>
      [base64Char (b1 / 4), base64Char (b1 % 4 * 16 + b2 / 16),
       base64Char (b2 % 16 * 4), '=']
  | b1 :: b2 :: b3 :: rest =>
      base64Char (b1 / 4) :: base64Char (b1 % 4 * 16 + b2 / 16) ::
      base64Char (b2 % 16 * 4 + b3 / 64) :: base64Char (b3 % 64) ::
      base64EncodeBytes rest

/-- ApplicationScanner.generateAppId: base64 of the path with every slash,
plus and equals character removed. -/
def generateAppId (appPath : String) : String :=
  String.mk ((base64EncodeBytes (utf8Bytes appPath)).filter
    (fun c => ¬ (c = '/' ∨ c = '+' ∨ c = '=')))

/-! ### ApplicationScanner.parseApplication -/

/-- Node path.basename(p): the last path component, ignoring trailing
separators. -/
def basenamePure (p : String) : String :=
  match ((p.splitOn "/").filter (fun s => s ≠ "")).getLast? with
  | some b => b
  | none => ""

/-- Node path.basename(p, ext) with ext = the dot-app suffix: strips the
suffix from the basename when it is a proper suffix. -/
def basenameNoApp (p : String) : String :=
  let b := basenamePure p
  if b ≠ ".app" ∧ b.endsWith ".app" then b.dropRight 4 else b

/-- Relevant fields of a parsed Info.plist document. -/
structure PlistData where
  CFBundleDisplayName : Option String
  CFBundleName : Option String
  CFBundleIdentifier : Option String
  CFBundleShortVersionString : Option String
  CFBundleVersion : Option String
  CFBundleIconFile : Option String
  LSApplicationCategoryType : Option String
  deriving DecidableEq

/-- Outcome of locating and parsing the Info.plist descriptor of a bundle:
the file is absent, or present but plist.parse (or the read) throws, or it
parses to a document. -/
inductive DescriptorState where
  | missing
  | parseFails
  | parsed (d : PlistData)
  deriving DecidableEq

/-- Filesystem facts consumed while parsing one bundle: the stat mtime, the
current time, whether the referenced icon file exists, and the du output in
kilobytes (none when the du invocation fails). -/
structure ScanEnv where
  mtime : String
  now : String
  iconFileExists : Bool
  sizeKB : Option Nat
  deriving DecidableEq

/-- JS a || b on an optional string: b when a is undefined or empty. -/
def orElseStr (a : Option String) (b : String) : String :=
  match a with
  | some s => if s = "" then b else s
  | none => b

/-- JS a || b where both operands are optional strings. -/
def orOptStr (a b : Option String) : Option String :=
  match a with
  | some s => if s = "" then b else some s
  | none => b

/-- Test whether the first character list starts the second. -/
def startsWithChars : List Char → List Char → Bool
  | [], _ => true
  | _ :: _, [] => false
  | a :: as, b :: bs => a = b && startsWithChars as bs

/-- Test whether the first character list occurs inside the second. -/
def hasSubChars (needle : List Char) : List Char → Bool
  | [] => needle.isEmpty
  | b :: bs => startsWithChars needle (b :: bs) || hasSubChars needle bs

/-- Substring test, as JS String.includes. -/
def containsStr (hay needle : String) : Bool :=
  hasSubChars needle.data hay.data

/-- Keyword table of ApplicationScanner.categorizeApplication, in declared
order. -/
def keywordCategoryMap : List (String × List String) :=
  [("Productivity", ["office", "document", "text", "note", "task", "calendar"]),
   ("Development", ["xcode", "code", "terminal", "git", "developer"]),
   ("Graphics", ["photo", "image", "design", "sketch", "figma", "adobe"]),
   ("Entertainment", ["music", "video", "media", "netflix", "spotify"]),
   ("Communication", ["mail", "message", "slack", "discord", "zoom"]),
   ("Utilities", ["utility", "system", "clean", "monitor", "activity"]),
   ("Games", ["game"]),
   ("Finance", ["bank", "finance", "money", "budget"]),
   ("Social", ["social", "facebook", "twitter", "instagram"])]

/-- First category whose keyword list has a substring match against the
lower-cased bundle identifier. -/
def firstKeywordCategory (bundleId : String) : List (String × List String) → Option String
  | [] => none
  | (cat, kws) :: rest =>
      if kws.any (fun kw => containsStr bundleId kw) then some cat
      else firstKeywordCategory bundleId rest

/-- ApplicationScanner.categorizeApplication: keyword match on the bundle
identifier first, then coarse substring checks on LSApplicationCategoryType,
else Other. -/
def categorizeApplication (d : PlistData) : String :=
  let bundleId := (d.CFBundleIdentifier.getD "").toLower
  let category := d.LSApplicationCategoryType.getD ""
  match firstKeywordCategory bundleId keywordCategoryMap with
  | some cat => cat
  | none =>
      if containsStr category "productivity" then "Productivity"
      else if containsStr category "graphics" then "Graphics"
      else if containsStr category "utility" then "Utilities"
      else if containsStr category "game" then "Games"
      else "Other"

/-- ApplicationScanner.extractIconPath, with the pathExists check supplied by
the environment. -/
def extractIconPath (appPath : String) (d : PlistData) (iconFileExists : Bool) :
    Option String :=
  match d.CFBundleIconFile with
  | none => none
  | some nm =>
      let iconPath := appPath ++ "/Contents/Resources/" ++
        (if nm.endsWith ".icns" then nm else nm ++ ".icns")
      if iconFileExists then some iconPath else none

/-- ApplicationScanner.calculateAppSize: kilobytes from du times 1024, zero on
failure. -/
def calculateAppSize (sizeKB : Option Nat) : Nat :=
  match sizeKB with
  | some kb => kb * 1024
  | none => 0

/-- ApplicationScanner.createFallbackApplication. -/
def createFallbackApplication (appPath appName now : String) : Application :=
  { id := generateAppId appPath
    name := appName
    bundleIdentifier := "unknown." ++ appName
    path := appPath
    version := none
    icon := none
    category := some "Other"
    lastModified := now
    size := none }

/-- ApplicationScanner.parseApplication. A missing Info.plist yields the
fallback record; a read or parse failure is caught and yields none (the
bundle is dropped); a parsed document yields the full record. -/
def parseApplication (appPath : String) (ds : DescriptorState) (env : ScanEnv) :
    Option Application :=
  let appName := basenameNoApp appPath
  match ds with
  | .missing => some (createFallbackApplication appPath appName env.now)
  | .parseFails => none
  | .parsed d =>
      some
        { id := generateAppId appPath
          name := orElseStr d.CFBundleDisplayName (orElseStr d.CFBundleName appName)
          bundleIdentifier := orElseStr d.CFBundleIdentifier ("unknown." ++ appName)
          path := appPath
          version := orOptStr d.CFBundleShortVersionString d.CFBundleVersion
          icon := extractIconPath appPath d env.iconFileExists
          category := some (categorizeApplication d)
          lastModified := env.mtime
          size := some (calculateAppSize env.sizeKB) }

/-! ### StorageManager: defaults and reads -/

/-- Fixed 8-color palette of StorageManager.createDefaultFolders. -/
def defaultColors : List String :=
  ["#FF6B6B", "#4ECDC4", "#45B7D1", "#96CEB4", "#FECA57", "#FF9FF3", "#54A0FF", "#5F27CD"]

/-- StorageManager.createDefaultFolders: the eight seeded folders, in declared
order, stamped with the current time. -/
def createDefaultFolders (now : String) : List LaunchmatFolder :=
  [{ id := "folder_productivity", name := "Productivity", color := defaultColors.getD 0 "",
     icon := "briefcase", applicationIds := [], position := 0, createdAt := now },
   { id := "folder_development", name := "Development", color := defaultColors.getD 1 "",
     icon := "code", applicationIds := [], position := 1, createdAt := now },
   { id := "folder_graphics", name := "Graphics & Design", color := defaultColors.getD 2 "",
     icon := "paintbrush", applicationIds := [], position := 2, createdAt := now },
   { id := "folder_entertainment", name := "Entertainment", color := defaultColors.getD 3 "",
     icon := "play", applicationIds := [], position := 3, createdAt := now },
   { id := "folder_utilities", name := "Utilities", color := defaultColors.getD 4 "",
     icon := "wrench", applicationIds := [], position := 4, createdAt := now },
   { id := "folder_games", name := "Games", color := defaultColors.getD 5 "",
     icon := "gamepad", applicationIds := [], position := 5, createdAt := now },
   { id := "folder_communication", name := "Communication", color := defaultColors.getD 6 "",
     icon := "message-circle", applicationIds := [], position := 6, createdAt := now },
   { id := "folder_other", name := "Other", color := defaultColors.getD 7 "",
     icon := "grid", applicationIds := [], position := 7, createdAt := now }]

/-- StorageManager.createDefaultSettings. -/
def createDefaultSettings (now : String) : LaunchmatSettings :=
  { folders := [], applicationMappings := [], lastScanTime := now, version := "1.0.0" }

/-- Value returned by StorageManager.loadFolders on the successful read path:
the stored record, or the freshly built defaults when the key is absent. The
source method performs no write in either case. -/
def loadFoldersPure (s : Store) (now : String) : List LaunchmatFolder :=
  match s.folders with
  | none => createDefaultFolders now
  | some fs => fs

/-- Folder list the store presents at a given time. -/
def foldersOf (s : Store) (now : String) : List LaunchmatFolder :=
  loadFoldersPure s now

/-- StorageManager.loadFolders as a state-passing operation: it returns the
folder list and leaves the store untouched (the source method only ever calls
getItem, never setItem). -/
def loadFoldersOp (s : Store) (now : String) : List LaunchmatFolder × Store :=
  (loadFoldersPure s now, s)

/-- Value returned by StorageManager.loadSettings on the successful read
path. -/
def loadSettingsPure (s : Store) (now : String) : LaunchmatSettings :=
  match s.settings with
  | none => createDefaultSettings now
  | some st => st

/-- Value returned by StorageManager.loadApplicationMappings on the successful
read path: the stored object or an empty one. -/
def getMappings (s : Store) : Mappings :=
  match s.mappings with
  | none => []
  | some m => m

/-! ### List helpers mirroring in-place mutation through Array.prototype.find -/

/-- Effect of folders.find(pred) followed by mutating the found element in
place: the first matching element is replaced, everything else is kept. -/
def updateFirst (p : LaunchmatFolder → Bool) (g : LaunchmatFolder → LaunchmatFolder) :
    List LaunchmatFolder → List LaunchmatFolder
  | [] => []
  | f :: fs => if p f then g f :: fs else f :: updateFirst p g fs

/-- Push with an includes guard: append the element unless already present. -/
def pushUnique (acc : List String) (a : String) : List String :=
  if a ∈ acc then acc else acc ++ [a]

/-- Combined findIndex plus element access: index and value of the first
match. -/
def findIdxAux (p : LaunchmatFolder → Bool) :
    List LaunchmatFolder → Option (Nat × LaunchmatFolder)
  | [] => none
  | f :: fs =>
      if p f then some (0, f)
      else (findIdxAux p fs).map (fun r => (r.1 + 1, r.2))

/-! ### StorageManager mutations (successful-write path) -/

/-- Removal passage of StorageManager.moveAppToFolder: when fromFolderId is
truthy (non-null and non-empty), filter the app id out of the list of the
first folder carrying that id. -/
def removeStage (appId : String) (fromFolderId : Option String)
    (folders : List LaunchmatFolder) : List LaunchmatFolder :=
  match fromFolderId with
  | some fid =>
      if fid = "" then folders
      else updateFirst (fun f => f.id = fid)
        (fun f => { f with applicationIds := f.applicationIds.filter (fun x => x ≠ appId) })
        folders
  | none => folders

/-- Insertion passage of StorageManager.moveAppToFolder: append the app id to
the list of the first folder carrying toFolderId, unless already present. -/
def addStage (appId toFolderId : String)
    (folders : List LaunchmatFolder) : List LaunchmatFolder :=
  updateFirst (fun f => f.id = toFolderId)
    (fun f =>
      if appId ∈ f.applicationIds then f
      else { f with applicationIds := f.applicationIds ++ [appId] })
    folders

/-- StorageManager.moveAppToFolder: remove the app id from the list of the
first folder matching fromFolderId (a null or empty fromFolderId skips the
removal, by JS truthiness), append it to the list of the first folder matching
toFolderId unless present, set the mapping, and persist folders and
mappings. -/
def moveAppToFolder (appId : String) (fromFolderId : Option String)
    (toFolderId : String) (now : String) (s : Store) : Store :=
  let folders := loadFoldersPure s now
  let mappings := getMappings s
  let folders2 := addStage appId toFolderId (removeStage appId fromFolderId folders)
  { s with folders := some folders2, mappings := some (setMap mappings appId toFolderId) }

/-- StorageManager.createFolder: append a folder with a time-based id,
position equal to the current folder count and an empty application list,
persisting the folder key. The Date.now() value is passed as tsId. -/
def createFolder (name color icon : String) (tsId now : String) (s : Store) :
    Store × LaunchmatFolder :=
  let folders := loadFoldersPure s now
  let newFolder : LaunchmatFolder :=
    { id := "folder_" ++ tsId, name := name, color := color, icon := icon,
      applicationIds := [], position := folders.length, createdAt := now }
  ({ s with folders := some (folders ++ [newFolder]) }, newFolder)

/-- StorageManager.deleteFolder: no-op when the id is absent; otherwise push
every app id of the deleted folder onto the first folder with id folder_other
(guarded by includes), point each mapping at folder_other, splice the folder
out, and persist folders and mappings. When no folder_other exists the apps
are not reassigned and the mappings are left as they were. -/
def deleteFolder (folderId : String) (now : String) (s : Store) : Store :=
  let folders := loadFoldersPure s now
  let mappings := getMappings s
  match findIdxAux (fun f => f.id = folderId) folders with
  | none => s
  | some (i, folder) =>
      let updated :=
        match folders.find? (fun f => f.id = "folder_other") with
        | some _ =>
            (updateFirst (fun f => f.id = "folder_other")
              (fun o => { o with
                applicationIds := folder.applicationIds.foldl pushUnique o.applicationIds })
              folders,
             folder.applicationIds.foldl (fun m a => setMap m a "folder_other") mappings)
        | none => (folders, mappings)
      { s with folders := some (updated.1.eraseIdx i), mappings := some updated.2 }

/-- Position assignment pass of StorageManager.reorderFolders: forEach over the
supplied ids with their indices, setting the position of the first folder with
each id. -/
def applyOrder (i : Nat) : List String → List LaunchmatFolder → List LaunchmatFolder
  | [], fs => fs
  | fid :: rest, fs =>
      applyOrder (i + 1) rest
        (updateFirst (fun f => f.id = fid) (fun f => { f with position := i }) fs)

/-- Stable insertion of a folder before the first strictly greater position,
after earlier-inserted equal positions it was inserted below. -/
def insertByPos (f : LaunchmatFolder) : List LaunchmatFolder → List LaunchmatFolder
  | [] => [f]
  | g :: gs => if f.position ≤ g.position then f :: g :: gs else g :: insertByPos f gs

/-- Stable sort by position, as Array.prototype.sort with the numeric
comparator (stable per the ECMAScript specification). -/
def sortByPosition : List LaunchmatFolder → List LaunchmatFolder
  | [] => []
  | f :: fs => insertByPos f (sortByPosition fs)

/-- StorageManager.reorderFolders: set positions from the supplied id order,
sort by position, persist the folder key. Folders absent from the list keep
their old position. -/
def reorderFolders (folderIds : List String) (now : String) (s : Store) : Store :=
  let folders := loadFoldersPure s now
  let folders2 := sortByPosition (applyOrder 0 folderIds folders)
  { s with folders := some folders2 }

/-! ### Auto-categorization -/

/-- Category-label to folder-id table of StorageManager.getCategoryForApp. -/
def categoryFolderTable : Mappings :=
  [("productivity", "folder_productivity"), ("development", "folder_development"),
   ("graphics", "folder_graphics"), ("entertainment", "folder_entertainment"),
   ("utilities", "folder_utilities"), ("games", "folder_games"),
   ("communication", "folder_communication"), ("finance", "folder_utilities"),
   ("social", "folder_communication"), ("other", "folder_other")]

/-- Target folder id before the existence check in
StorageManager.getCategoryForApp: lower-case the category (absent or empty
becomes other, by JS truthiness) and translate it through the table with
fallback folder_other. -/
def rawTargetFolderId (app : Application) : String :=
  let category :=
    match app.category with
    | none => "other"
    | some c => if c.toLower = "" then "other" else c.toLower
  (getMap categoryFolderTable category).getD "folder_other"

/-- StorageManager.getCategoryForApp: the translated target id, demoted to
folder_other when no folder carries it. -/
def getCategoryForApp (app : Application) (folders : List LaunchmatFolder) : String :=
  match folders.find? (fun f => f.id = rawTargetFolderId app) with
  | some _ => rawTargetFolderId app
  | none => "folder_other"

/-- Loop body of StorageManager.autoCategorizeNewApps over one uncategorized
application, threading the live folder list and the updated mappings. -/
def autoCatStep (st : List LaunchmatFolder × Mappings) (app : Application) :
    List LaunchmatFolder × Mappings :=
  let targetFolderId := getCategoryForApp app st.1
  match st.1.find? (fun f => f.id = targetFolderId) with
  | some tf =>
      if app.id ∈ tf.applicationIds then st
      else
        (updateFirst (fun f => f.id = targetFolderId)
          (fun f => { f with applicationIds := f.applicationIds ++ [app.id] }) st.1,
         setMap st.2 app.id targetFolderId)
  | none => st

/-- StorageManager.autoCategorizeNewApps: applications whose id is not yet a
mapping key are folded through autoCatStep; the resulting folders and mappings
are persisted and the folders returned. -/
def autoCategorizeNewApps (applications : List Application)
    (existingFolders : List LaunchmatFolder) (s : Store) :
    List LaunchmatFolder × Store :=
  let mappings := getMappings s
  let uncategorized := applications.filter (fun a => (getMap mappings a.id).isNone)
  let r := uncategorized.foldl autoCatStep (existingFolders, mappings)
  (r.1, { s with folders := some r.1, mappings := some r.2 })

/-! ### Export and import -/

/-- Snapshot produced by StorageManager.exportSettings before serialization. -/
structure ExportData where
  folders : List LaunchmatFolder
  settings : LaunchmatSettings
  mappings : Mappings
  exportedAt : String
  version : String
  deriving DecidableEq

/-- Parsed form of a snapshot accepted by StorageManager.importSettings: each
of the three restorable keys may be absent. -/
structure ImportData where
  folders : Option (List LaunchmatFolder)
  settings : Option LaunchmatSettings
  mappings : Option Mappings
  deriving DecidableEq

/-- StorageManager.exportSettings: loads the three record sets and snapshots
them with a timestamp and schema version. JSON.stringify is modelled as the
identity on the structured snapshot. -/
def exportSettings (s : Store) (now : String) : ExportData :=
  { folders := loadFoldersPure s now
    settings := loadSettingsPure s now
    mappings := getMappings s
    exportedAt := now
    version := "1.0.0" }

/-- View of an export snapshot as import input (JSON.parse of the serialized
snapshot yields all three keys). -/
def toImportData (e : ExportData) : ImportData :=
  { folders := some e.folders, settings := some e.settings, mappings := some e.mappings }

/-- StorageManager.importSettings on a parsed snapshot: each key present in
the snapshot is saved over the corresponding store key. -/
def importSettings (d : ImportData) (s : Store) : Store :=
  let s1 := match d.folders with
    | some fs => { s with folders := some fs }
    | none => s
  let s2 := match d.settings with
    | some st => { s1 with settings := some st }
    | none => s1
  match d.mappings with
  | some m => { s2 with mappings := some m }
  | none => s2

/-! ### Fallible storage layer (for the error policy)

Each LocalStorage primitive can throw. For write methods the flag ok tells
whether setItem succeeds; the Except result captures whether the method
re-raises. For read methods the outcome enumerates the underlying failure
modes that the catch blocks absorb. -/

/-- Outcome of getItem plus JSON.parse for one key: the read throws, the key
is absent, the stored text fails to parse, or a value is obtained. -/
inductive LoadOutcome (α : Type) where
  | readFails
  | absent
  | corrupt
  | present (v : α)

/-- StorageManager.saveFolders: on a write failure the catch logs and
re-throws. -/
def saveFoldersE (ok : Bool) (fs : List LaunchmatFolder) (s : Store) : Except Unit Store :=
  if ok then .ok { s with folders := some fs } else .error ()

/-- StorageManager.saveSettings: on a write failure the catch logs and
re-throws. -/
def saveSettingsE (ok : Bool) (st : LaunchmatSettings) (s : Store) : Except Unit Store :=
  if ok then .ok { s with settings := some st } else .error ()

/-- StorageManager.saveApplicationMappings: on a write failure the catch logs
and re-throws. -/
def saveApplicationMappingsE (ok : Bool) (m : Mappings) (s : Store) : Except Unit Store :=
  if ok then .ok { s with mappings := some m } else .error ()

/-- StorageManager.setLastScanTime: the catch block only logs; the failure is
swallowed and the method returns normally with the store unchanged. -/
def setLastScanTimeE (ok : Bool) (t : String) (s : Store) : Except Unit Store :=
  if ok then .ok { s with lastScan := some t } else .ok s

/-- StorageManager.loadFolders over the fallible read: every failure mode
degrades to the seeded defaults. -/
def loadFoldersR (r : LoadOutcome (List LaunchmatFolder)) (now : String) :
    List LaunchmatFolder :=
  match r with
  | .present fs => fs
  | .absent => createDefaultFolders now
  | .corrupt => createDefaultFolders now
  | .readFails => createDefaultFolders now

/-- StorageManager.loadSettings over the fallible read: every failure mode
degrades to the default settings. -/
def loadSettingsR (r : LoadOutcome LaunchmatSettings) (now : String) :
    LaunchmatSettings :=
  match r with
  | .present st => st
  | .absent => createDefaultSettings now
  | .corrupt => createDefaultSettings now
  | .readFails => createDefaultSettings now

/-- StorageManager.loadApplicationMappings over the fallible read: every
failure mode degrades to the empty mapping table. -/
def loadApplicationMappingsR (r : LoadOutcome Mappings) : Mappings :=
  match r with
  | .present m => m
  | .absent => []
  | .corrupt => []
  | .readFails => []

/-- StorageManager.getLastScanTime over the fallible read: absence and read
failure both yield null. -/
def getLastScanTimeR (r : LoadOutcome String) : Option String :=
  match r with
  | .present t => some t
  | .absent => none
  | .corrupt => none
  | .readFails => none

/-! Fallible compound mutations. Each mirrors its method with the awaited
save primitives replaced by the fallible ones; a catch block that logs and
re-throws is the identity on the error path, so the error of the first
failing save propagates. autoCategorizeNewApps is the exception: its catch
returns the existing folders instead of re-throwing, so it never fails. -/

/-- StorageManager.moveAppToFolder over the fallible writes: saveFolders then
saveApplicationMappings, the catch re-throwing either failure. -/
def moveAppToFolderE (okF okM : Bool) (appId : String) (fromFolderId : Option String)
    (toFolderId now : String) (s : Store) : Except Unit Store :=
  let folders := loadFoldersPure s now
  let mappings := getMappings s
  let folders2 := addStage appId toFolderId (removeStage appId fromFolderId folders)
  match saveFoldersE okF folders2 s with
  | .error e => .error e
  | .ok s1 => saveApplicationMappingsE okM (setMap mappings appId toFolderId) s1

/-- StorageManager.createFolder over the fallible write, the catch
re-throwing a saveFolders failure. -/
def createFolderE (ok : Bool) (name color icon tsId now : String) (s : Store) :
    Except Unit (Store × LaunchmatFolder) :=
  let folders := loadFoldersPure s now
  let newFolder : LaunchmatFolder :=
    { id := "folder_" ++ tsId, name := name, color := color, icon := icon,
      applicationIds := [], position := folders.length, createdAt := now }
  match saveFoldersE ok (folders ++ [newFolder]) s with
  | .error e => .error e
  | .ok s1 => .ok (s1, newFolder)

/-- StorageManager.deleteFolder over the fallible writes: still a no-op when
the id is absent; otherwise saveFolders then saveApplicationMappings, the
catch re-throwing either failure. -/
def deleteFolderE (okF okM : Bool) (folderId : String) (now : String) (s : Store) :
    Except Unit Store :=
  let folders := loadFoldersPure s now
  let mappings := getMappings s
  match findIdxAux (fun f => f.id = folderId) folders with
  | none => .ok s
  | some (i, folder) =>
      let updated :=
        match folders.find? (fun f => f.id = "folder_other") with
        | some _ =>
            (updateFirst (fun f => f.id = "folder_other")
              (fun o => { o with
                applicationIds := folder.applicationIds.foldl pushUnique o.applicationIds })
              folders,
             folder.applicationIds.foldl (fun m a => setMap m a "folder_other") mappings)
        | none => (folders, mappings)
      match saveFoldersE okF (updated.1.eraseIdx i) s with
      | .error e => .error e
      | .ok s1 => saveApplicationMappingsE okM updated.2 s1

/-- Partial name, color and icon fields accepted by
StorageManager.updateFolder. -/
structure FolderUpdates where
  name : Option String
  color : Option String
  icon : Option String

/-- Effect of Object.assign(folder, updates, updatedAt-stamp): present fields
overwrite, and updatedAt is stamped. -/
def applyUpdates (u : FolderUpdates) (now : String) (f : LaunchmatFolder) :
    LaunchmatFolder :=
  { f with name := u.name.getD f.name, color := u.color.getD f.color,
           icon := u.icon.getD f.icon, updatedAt := some now }

/-- StorageManager.updateFolder over the fallible write: merge into the first
folder with the id and save, the catch re-throwing a saveFolders failure;
no-op when the id is absent. -/
def updateFolderE (ok : Bool) (folderId : String) (u : FolderUpdates)
    (now : String) (s : Store) : Except Unit Store :=
  let folders := loadFoldersPure s now
  match folders.find? (fun f => f.id = folderId) with
  | some _ =>
      saveFoldersE ok (updateFirst (fun f => f.id = folderId) (applyUpdates u now) folders) s
  | none => .ok s

/-- StorageManager.reorderFolders over the fallible write, the catch
re-throwing a saveFolders failure. -/
def reorderFoldersE (ok : Bool) (folderIds : List String) (now : String)
    (s : Store) : Except Unit Store :=
  saveFoldersE ok (sortByPosition (applyOrder 0 folderIds (loadFoldersPure s now))) s

/-- StorageManager.importSettings over the fallible writes: each key present
in the snapshot is saved in turn, the catch re-throwing the first failure. -/
def importSettingsE (okF okS okM : Bool) (d : ImportData) (s : Store) :
    Except Unit Store :=
  let step1 : Except Unit Store :=
    match d.folders with
    | some fs => saveFoldersE okF fs s
    | none => .ok s
  match step1 with
  | .error e => .error e
  | .ok s1 =>
      let step2 : Except Unit Store :=
        match d.settings with
        | some st => saveSettingsE okS st s1
        | none => .ok s1
      match step2 with
      | .error e => .error e
      | .ok s2 =>
          match d.mappings with
          | some m => saveApplicationMappingsE okM m s2
          | none => .ok s2

/-- StorageManager.autoCategorizeNewApps over the fallible writes: it saves
the mappings first and the folders second, and its catch returns the
existing folders instead of re-throwing, so the method never fails; a write
failure is swallowed, keeping whatever of the two writes already
succeeded. -/
def autoCategorizeNewAppsE (okM okF : Bool) (applications : List Application)
    (existingFolders : List LaunchmatFolder) (s : Store) :
    List LaunchmatFolder × Store :=
  let mappings := getMappings s
  let uncategorized := applications.filter (fun a => (getMap mappings a.id).isNone)
  let r := uncategorized.foldl autoCatStep (existingFolders, mappings)
  match saveApplicationMappingsE okM r.2 s with
  | .error _ => (existingFolders, s)
  | .ok s1 =>
      match saveFoldersE okF r.1 s1 with
      | .error _ => (existingFolders, s1)
      | .ok s2 => (r.1, s2)

/-- Store seeded with the default folders, as it stands right after the first
saveFolders of the defaults. -/
def seedStore (now : String) : Store :=
  { folders := some (createDefaultFolders now), settings := none,
    mappings := none, lastScan := none }

/-! ### Lemmas about the list and map helpers -/

theorem updateFirst_nil (p : LaunchmatFolder → Bool) (g : LaunchmatFolder → LaunchmatFolder) :
    updateFirst p g [] = [] := rfl

theorem updateFirst_cons_pos {p : LaunchmatFolder → Bool} {g f} (l : List LaunchmatFolder)
    (h : p f = true) : updateFirst p g (f :: l) = g f :: l := by
  simp [updateFirst, h]

theorem updateFirst_cons_neg {p : LaunchmatFolder → Bool} {g f} (l : List LaunchmatFolder)
    (h : ¬ p f = true) : updateFirst p g (f :: l) = f :: updateFirst p g l := by
  simp [updateFirst, h]

theorem updateFirst_of_find?_none {p : LaunchmatFolder → Bool} {g}
    {l : List LaunchmatFolder} (h : l.find? p = none) : updateFirst p g l = l := by
  induction l with
  | nil => rfl
  | cons f fs ih =>
      cases hp : p f with
      | true => rw [List.find?_cons_of_pos _ hp] at h; exact absurd h (by simp)
      | false =>
          rw [List.find?_cons_of_neg _ (by simp [hp])] at h
          rw [updateFirst_cons_neg _ (by simp [hp]), ih h]

theorem updateFirst_length (p : LaunchmatFolder → Bool) (g) (l : List LaunchmatFolder) :
    (updateFirst p g l).length = l.length := by
  induction l with
  | nil => rfl
  | cons f fs ih =>
      by_cases hp : p f = true
      · rw [updateFirst_cons_pos _ hp]; simp
      · rw [updateFirst_cons_neg _ hp]; simp [ih]

theorem updateFirst_decomp {p : LaunchmatFolder → Bool} (g)
    {s : List LaunchmatFolder} {f : LaunchmatFolder} (t : List LaunchmatFolder)
    (hs : ∀ x ∈ s, ¬ p x = true) (hf : p f = true) :
    updateFirst p g (s ++ f :: t) = s ++ g f :: t := by
  induction s with
  | nil => simpa using updateFirst_cons_pos t hf
  | cons a s ih =>
      have ha : ¬ p a = true := hs a (by simp)
      have := ih (fun x hx => hs x (by simp [hx]))
      simp only [List.cons_append, updateFirst_cons_neg _ ha, this]

theorem countP_updateFirst {p : LaunchmatFolder → Bool} {g} (q : LaunchmatFolder → Bool)
    {l : List LaunchmatFolder} {x : LaunchmatFolder} (h : l.find? p = some x) :
    (updateFirst p g l).countP q + (if q x then 1 else 0)
      = l.countP q + (if q (g x) then 1 else 0) := by
  induction l with
  | nil => simp at h
  | cons f fs ih =>
      rw [List.find?_cons] at h
      cases hp : p f with
      | true =>
          simp only [hp, if_pos rfl] at h
          cases h
          rw [updateFirst_cons_pos _ hp]
          simp only [List.countP_cons]
          omega
      | false =>
          simp only [hp] at h
          rw [updateFirst_cons_neg _ (by simp [hp])]
          simp only [List.countP_cons]
          have := ih h
          omega

theorem map_updateFirst {p : LaunchmatFolder → Bool} {g}
    (f : LaunchmatFolder → α) (l : List LaunchmatFolder)
    (hg : ∀ x, f (g x) = f x) : (updateFirst p g l).map f = l.map f := by
  induction l with
  | nil => rfl
  | cons a l ih =>
      by_cases hp : p a = true
      · rw [updateFirst_cons_pos _ hp]; simp [hg]
      · rw [updateFirst_cons_neg _ hp]; simp [ih]

theorem mem_updateFirst {p : LaunchmatFolder → Bool} {g} {l : List LaunchmatFolder}
    {y : LaunchmatFolder} (h : y ∈ updateFirst p g l) :
    y ∈ l ∨ ∃ x, l.find? p = some x ∧ y = g x := by
  induction l with
  | nil => simp [updateFirst] at h
  | cons a l ih =>
      by_cases hp : p a = true
      · rw [updateFirst_cons_pos _ hp] at h
        rcases List.mem_cons.mp h with h | h
        · exact Or.inr ⟨a, by rw [List.find?_cons_of_pos _ hp], h⟩
        · exact Or.inl (List.mem_cons_of_mem _ h)
      · rw [updateFirst_cons_neg _ hp] at h
        rcases List.mem_cons.mp h with h | h
        · exact Or.inl (h ▸ List.mem_cons_self _ _)
        · rcases ih h with h | ⟨x, hx, hy⟩
          · exact Or.inl (List.mem_cons_of_mem _ h)
          · exact Or.inr ⟨x, by rw [List.find?_cons_of_neg _ (by simp [hp]), hx], hy⟩

theorem findIdxAux_eq_none {p : LaunchmatFolder → Bool} {l : List LaunchmatFolder}
    (h : ∀ x ∈ l, ¬ p x = true) : findIdxAux p l = none := by
  induction l with
  | nil => rfl
  | cons f fs ih =>
      have := h f (by simp)
      simp only [findIdxAux, if_neg this]
      rw [ih (fun x hx => h x (by simp [hx]))]
      rfl

theorem findIdxAux_isSome_of_mem {p : LaunchmatFolder → Bool}
    {l : List LaunchmatFolder} {f : LaunchmatFolder} (hf : f ∈ l)
    (hp : p f = true) : (findIdxAux p l).isSome := by
  induction l with
  | nil => simp at hf
  | cons a t ih =>
      by_cases hpa : p a = true
      · simp [findIdxAux, hpa]
      · rcases List.mem_cons.mp hf with rfl | hft
        · exact absurd hp hpa
        · have := ih hft
          simp only [findIdxAux, if_neg hpa]
          cases hft2 : findIdxAux p t with
          | none => rw [hft2] at this; exact absurd this (by simp)
          | some r => simp

theorem findIdxAux_decomp {p : LaunchmatFolder → Bool}
    {s : List LaunchmatFolder} {f : LaunchmatFolder} (t : List LaunchmatFolder)
    (hs : ∀ x ∈ s, ¬ p x = true) (hf : p f = true) :
    findIdxAux p (s ++ f :: t) = some (s.length, f) := by
  induction s with
  | nil => simp [findIdxAux, hf]
  | cons a s ih =>
      have ha : ¬ p a = true := hs a (by simp)
      have hrec := ih (fun x hx => hs x (by simp [hx]))
      have hstep : findIdxAux p (a :: (s ++ f :: t))
          = (findIdxAux p (s ++ f :: t)).map (fun r => (r.1 + 1, r.2)) := by
        simp [findIdxAux, ha]
      rw [List.cons_append, hstep, hrec]
      rfl

theorem findIdxAux_some {p : LaunchmatFolder → Bool} {l : List LaunchmatFolder}
    {i : Nat} {f : LaunchmatFolder} (h : findIdxAux p l = some (i, f)) :
    ∃ s t, l = s ++ f :: t ∧ i = s.length ∧ (∀ x ∈ s, ¬ p x = true) ∧ p f = true := by
  induction l generalizing i with
  | nil => simp [findIdxAux] at h
  | cons a l ih =>
      by_cases hp : p a = true
      · simp only [findIdxAux, if_pos hp, Option.some.injEq, Prod.mk.injEq] at h
        exact ⟨[], l, by simp [h.2], by simp [h.1], by simp, h.2 ▸ hp⟩
      · simp only [findIdxAux, if_neg hp] at h
        cases hfl : findIdxAux p l with
        | none => rw [hfl] at h; simp at h
        | some r =>
            rw [hfl] at h
            simp only [Option.map_some', Option.some.injEq] at h
            obtain ⟨j, g⟩ := r
            cases h
            rcases ih hfl with ⟨s, t, hl, hj, hns, hg⟩
            exact ⟨a :: s, t, by simp [hl], by simp [hj], by
              intro x hx
              rcases List.mem_cons.mp hx with h | h
              · exact h ▸ hp
              · exact hns x h, hg⟩

theorem eraseIdx_decomp (s : List LaunchmatFolder) (f : LaunchmatFolder)
    (t : List LaunchmatFolder) : (s ++ f :: t).eraseIdx s.length = s ++ t := by
  induction s with
  | nil => rfl
  | cons a s ih => simp [List.eraseIdx, ih]

theorem mem_foldl_pushUnique (a : String) (l acc : List String) :
    a ∈ l.foldl pushUnique acc ↔ a ∈ acc ∨ a ∈ l := by
  induction l generalizing acc with
  | nil => simp
  | cons x l ih =>
      simp only [List.foldl_cons, ih, pushUnique]
      by_cases hx : x ∈ acc
      · simp only [if_pos hx]
        constructor
        · rintro (h | h)
          · exact Or.inl h
          · exact Or.inr (by simp [h])
        · rintro (h | h)
          · exact Or.inl h
          · rcases List.mem_cons.mp h with h | h
            · exact Or.inl (h ▸ hx)
            · exact Or.inr h
      · simp only [if_neg hx, List.mem_append, List.mem_singleton]
        constructor
        · rintro ((h | h) | h)
          · exact Or.inl h
          · exact Or.inr (by simp [h])
          · exact Or.inr (by simp [h])
        · rintro (h | h)
          · exact Or.inl (Or.inl h)
          · rcases List.mem_cons.mp h with h | h
            · exact Or.inl (Or.inr (by simp [h]))
            · exact Or.inr h

theorem foldl_pushUnique_of_subset {l acc : List String} (h : ∀ a ∈ l, a ∈ acc) :
    l.foldl pushUnique acc = acc := by
  induction l with
  | nil => rfl
  | cons x l ih =>
      have hx : x ∈ acc := h x (by simp)
      simp only [List.foldl_cons, pushUnique, if_pos hx]
      exact ih (fun a ha => h a (by simp [ha]))

theorem getMap_setMap_self (m : Mappings) (k v : String) :
    getMap (setMap m k v) k = some v := by
  induction m with
  | nil => simp [setMap, getMap]
  | cons p m ih =>
      by_cases hk : p.1 = k
      · simp [setMap, hk, getMap]
      · simp only [setMap, if_neg hk]
        simpa [getMap, List.find?_cons, hk] using ih

theorem getMap_setMap_ne (m : Mappings) {k k2 : String} (v : String) (h : k ≠ k2) :
    getMap (setMap m k v) k2 = getMap m k2 := by
  induction m with
  | nil => simp [setMap, getMap, h]
  | cons p m ih =>
      by_cases hk : p.1 = k
      · simp only [setMap, if_pos hk, getMap, List.find?_cons]
        have : ¬ (p.1 = k2) := by rw [hk]; exact h
        simp [this]
      · simp only [setMap, if_neg hk, getMap, List.find?_cons]
        by_cases h2 : p.1 = k2
        · simp [h2]
        · simpa [getMap, h2] using ih

theorem isSome_getMap_setMap {m : Mappings} {k : String} (k2 v : String)
    (h : (getMap m k).isSome) : (getMap (setMap m k2 v) k).isSome := by
  by_cases hk : k2 = k
  · rw [hk, getMap_setMap_self]; rfl
  · rw [getMap_setMap_ne _ _ hk]; exact h

theorem getMap_foldl_setMap_of_some {a v : String} :
    ∀ (l : List String) (m : Mappings), getMap m a = some v →
      getMap (l.foldl (fun m x => setMap m x v) m) a = some v := by
  intro l
  induction l with
  | nil => intro m hm; exact hm
  | cons y l ih =>
      intro m hm
      simp only [List.foldl_cons]
      by_cases hya : y = a
      · exact ih _ (by rw [hya, getMap_setMap_self])
      · exact ih _ (by rw [getMap_setMap_ne _ _ hya]; exact hm)

theorem getMap_foldl_setMap_mem {l : List String} {a : String} (m : Mappings)
    (v : String) (h : a ∈ l) :
    getMap (l.foldl (fun m x => setMap m x v) m) a = some v := by
  induction l generalizing m with
  | nil => simp at h
  | cons x l ih =>
      simp only [List.foldl_cons]
      by_cases hx : a ∈ l
      · exact ih _ hx
      · have hax : x = a := by
          rcases List.mem_cons.mp h with h | h
          · exact h.symm
          · exact absurd h hx
        rw [hax]
        exact getMap_foldl_setMap_of_some l _ (getMap_setMap_self m a v)

theorem isSome_getMap_foldl_setMap {m : Mappings} {a : String} (l : List String)
    (v : String) (h : (getMap m a).isSome) :
    (getMap (l.foldl (fun m x => setMap m x v) m) a).isSome := by
  induction l generalizing m with
  | nil => exact h
  | cons x l ih => exact ih (isSome_getMap_setMap x v h)

/-! ### Invariants under scrutiny -/

/-- Number of folders whose applicationIds list contains the given app id. -/
def appCount (a : String) (fs : List LaunchmatFolder) : Nat :=
  fs.countP (fun f => decide (a ∈ f.applicationIds))

/-- Membership exclusivity: every application id occurs in the applicationIds
of at most one folder. -/
def exclusiveMembership (fs : List LaunchmatFolder) : Prop :=
  ∀ a : String, appCount a fs ≤ 1

/-- Position density: the positions of the folders are exactly 0 to count-1
in some order. -/
def denseOrder (fs : List LaunchmatFolder) : Prop :=
  (fs.map (fun f => f.position)).Perm (List.range fs.length)

theorem appCount_eq_zero {a : String} {fs : List LaunchmatFolder}
    (h : ∀ f ∈ fs, a ∉ f.applicationIds) : appCount a fs = 0 := by
  simp only [appCount, List.countP_eq_zero]
  intro f hf
  simpa using h f hf

theorem exclusive_of_empty {fs : List LaunchmatFolder}
    (h : ∀ f ∈ fs, f.applicationIds = []) : exclusiveMembership fs := by
  intro a
  have : appCount a fs = 0 := appCount_eq_zero (fun f hf => by simp [h f hf])
  omega

/-! ### C3: fresh-store loadFolders -/

/-- C3 (amended): on a fresh store loadFolders returns exactly the eight
default folders with the declared names, well-known distinct ids, positions 0
through 7, distinct palette colors and empty application lists, and performs
no write: the store is untouched. The claim is corrected because the seeded
set is NOT persisted. -/
theorem loadFolders_fresh_defaults (now : String) :
    (loadFoldersOp emptyStore now).2 = emptyStore ∧
    ((loadFoldersOp emptyStore now).1.map (fun f => f.name))
      = ["Productivity", "Development", "Graphics & Design", "Entertainment",
         "Utilities", "Games", "Communication", "Other"] ∧
    ((loadFoldersOp emptyStore now).1.map (fun f => f.id))
      = ["folder_productivity", "folder_development", "folder_graphics",
         "folder_entertainment", "folder_utilities", "folder_games",
         "folder_communication", "folder_other"] ∧
    ((loadFoldersOp emptyStore now).1.map (fun f => f.id)).Nodup ∧
    ((loadFoldersOp emptyStore now).1.map (fun f => f.position))
      = [0, 1, 2, 3, 4, 5, 6, 7] ∧
    ((loadFoldersOp emptyStore now).1.map (fun f => f.color)) = defaultColors ∧
    defaultColors.Nodup ∧
    (∀ f ∈ (loadFoldersOp emptyStore now).1, f.applicationIds = []) ∧
    (loadFoldersOp emptyStore now).1.length = 8 := by
  refine ⟨rfl, rfl, rfl, ?_, rfl, rfl, by decide, ?_, rfl⟩
  · have hids : ((loadFoldersOp emptyStore now).1.map (fun f => f.id))
        = ["folder_productivity", "folder_development", "folder_graphics",
           "folder_entertainment", "folder_utilities", "folder_games",
           "folder_communication", "folder_other"] := rfl
    rw [hids]
    decide
  intro f hf
  simp only [loadFoldersOp, loadFoldersPure, emptyStore, createDefaultFolders,
    List.mem_cons, List.not_mem_nil, or_false] at hf
  rcases hf with rfl | rfl | rfl | rfl | rfl | rfl | rfl | rfl <;> rfl

/-- C3 counterexample: loadFolders on the fresh store does not persist the
seeded defaults; afterwards the folder key is still absent, so a subsequent
read does not find a stored record. -/
theorem loadFolders_fresh_no_persist :
    (loadFoldersOp emptyStore "t0").2.folders = none ∧
    (loadFoldersOp emptyStore "t0").2.folders
      ≠ some ((loadFoldersOp emptyStore "t0").1) := by
  exact ⟨rfl, by simp [loadFoldersOp, emptyStore]⟩

/-! ### C4: application id derivation -/

/-- C4 (amended): generateAppId is a deterministic pure function of the
bundle path, but it is not collision-free: stripping the slash, plus and
equals characters from the base64 form identifies distinct paths. -/
theorem generateAppId_deterministic_not_injective :
    (∀ p q : String, p = q → generateAppId p = generateAppId q) ∧
    (∃ p q : String, p ≠ q ∧ generateAppId p = generateAppId q) :=
  ⟨fun _ _ h => by rw [h], ⟨"ab", "ab?", by decide, by decide⟩⟩

/-- C4 witness: the determinism part applied at a concrete path. -/
theorem generateAppId_deterministic_witness :
    generateAppId "ab" = generateAppId "ab" :=
  generateAppId_deterministic_not_injective.1 "ab" "ab" rfl

/-- C4 counterexample: two distinct paths with the same derived id. -/
theorem generateAppId_collision :
    generateAppId "ab" = generateAppId "ab?" ∧ ("ab" : String) ≠ "ab?" :=
  ⟨by decide, by decide⟩

/-! ### C5: discovery fallback -/

/-- C5 (amended): a bundle whose descriptor file is missing yields the
synthesized fallback record (name and path from the bundle filename,
bundleIdentifier unknown.name, category Other), but a bundle whose descriptor
is present and fails to parse is dropped: parseApplication returns none, not
a fallback. -/
theorem parseApplication_fallback (appPath : String) (env : ScanEnv) :
    parseApplication appPath DescriptorState.missing env
      = some (createFallbackApplication appPath (basenameNoApp appPath) env.now) ∧
    parseApplication appPath DescriptorState.parseFails env = none ∧
    (createFallbackApplication appPath (basenameNoApp appPath) env.now).bundleIdentifier
      = "unknown." ++ basenameNoApp appPath ∧
    (createFallbackApplication appPath (basenameNoApp appPath) env.now).category
      = some "Other" ∧
    (createFallbackApplication appPath (basenameNoApp appPath) env.now).name
      = basenameNoApp appPath ∧
    (createFallbackApplication appPath (basenameNoApp appPath) env.now).path = appPath :=
  ⟨rfl, rfl, rfl, rfl, rfl, rfl⟩

/-- C5 counterexample: a present-but-unparseable descriptor does not produce
the fallback record the claim requires; the bundle is dropped. -/
theorem parseApplication_parse_failure_drops :
    parseApplication "/Applications/Broken.app" DescriptorState.parseFails
      ⟨"t1", "t2", false, none⟩ = none ∧
    parseApplication "/Applications/Broken.app" DescriptorState.parseFails
      ⟨"t1", "t2", false, none⟩
      ≠ some (createFallbackApplication "/Applications/Broken.app" "Broken" "t2") :=
  ⟨rfl, by simp [parseApplication]⟩

/-! ### C8: export and import round-trip -/

/-- C8: exporting and immediately importing the snapshot restores folders,
settings and mappings to exactly their values at export time. -/
theorem export_import_roundtrip (s : Store) (now now2 : String) :
    loadFoldersPure (importSettings (toImportData (exportSettings s now)) s) now2
      = (exportSettings s now).folders ∧
    loadSettingsPure (importSettings (toImportData (exportSettings s now)) s) now2
      = (exportSettings s now).settings ∧
    getMappings (importSettings (toImportData (exportSettings s now)) s)
      = (exportSettings s now).mappings :=
  ⟨rfl, rfl, rfl⟩

/-! ### C9: storage error policy -/

/-- C9 (amended): a failed underlying write is re-raised by saveFolders,
saveSettings and saveApplicationMappings, and by the compound mutations
moveAppToFolder, createFolder, deleteFolder (when it finds its target),
updateFolder (when it finds its target), reorderFolders and importSettings
(when the folder key is present), whose catch blocks log and re-throw; but
setLastScanTime swallows the failure and returns success with the store
unchanged, and autoCategorizeNewApps also swallows it, returning the
existing folders without re-raising (keeping whatever of its two writes
already succeeded). A failed underlying read is never propagated:
loadFolders degrades to the seeded defaults, loadSettings to default
settings, loadApplicationMappings to the empty table and getLastScanTime to
null. -/
theorem storage_error_policy :
    (∀ (fs : List LaunchmatFolder) (s : Store),
        saveFoldersE false fs s = Except.error ()) ∧
    (∀ (st : LaunchmatSettings) (s : Store),
        saveSettingsE false st s = Except.error ()) ∧
    (∀ (m : Mappings) (s : Store),
        saveApplicationMappingsE false m s = Except.error ()) ∧
    (∀ (t : String) (s : Store), setLastScanTimeE false t s = Except.ok s) ∧
    (∀ now, loadFoldersR LoadOutcome.readFails now = createDefaultFolders now) ∧
    (∀ now, loadSettingsR LoadOutcome.readFails now = createDefaultSettings now) ∧
    loadApplicationMappingsR LoadOutcome.readFails = [] ∧
    getLastScanTimeR LoadOutcome.readFails = none ∧
    (∀ (b : Bool) (appId : String) (fromId : Option String) (toId now : String) (s : Store),
        moveAppToFolderE false b appId fromId toId now s = Except.error ()) ∧
    (∀ (appId : String) (fromId : Option String) (toId now : String) (s : Store),
        moveAppToFolderE true false appId fromId toId now s = Except.error ()) ∧
    (∀ (name color icon tsId now : String) (s : Store),
        createFolderE false name color icon tsId now s = Except.error ()) ∧
    (∀ (b : Bool) (folderId now : String) (s : Store) (f : LaunchmatFolder),
        f ∈ foldersOf s now → f.id = folderId →
        deleteFolderE false b folderId now s = Except.error ()) ∧
    (∀ (folderId now : String) (s : Store) (f : LaunchmatFolder),
        f ∈ foldersOf s now → f.id = folderId →
        deleteFolderE true false folderId now s = Except.error ()) ∧
    (∀ (folderId : String) (u : FolderUpdates) (now : String) (s : Store)
        (f : LaunchmatFolder),
        f ∈ foldersOf s now → f.id = folderId →
        updateFolderE false folderId u now s = Except.error ()) ∧
    (∀ (ids : List String) (now : String) (s : Store),
        reorderFoldersE false ids now s = Except.error ()) ∧
    (∀ (b c : Bool) (fs : List LaunchmatFolder) (d2 : Option LaunchmatSettings)
        (d3 : Option Mappings) (s : Store),
        importSettingsE false b c ⟨some fs, d2, d3⟩ s = Except.error ()) ∧
    (∀ (b : Bool) (apps : List Application) (efs : List LaunchmatFolder) (s : Store),
        autoCategorizeNewAppsE false b apps efs s = (efs, s)) ∧
    (∀ (apps : List Application) (efs : List LaunchmatFolder) (s : Store),
        (autoCategorizeNewAppsE true false apps efs s).1 = efs) := by
  refine ⟨fun _ _ => rfl, fun _ _ => rfl, fun _ _ => rfl, fun _ _ => rfl,
    fun _ => rfl, fun _ => rfl, rfl, rfl,
    fun _ _ _ _ _ _ => rfl, fun _ _ _ _ _ => rfl, fun _ _ _ _ _ _ => rfl,
    ?_, ?_, ?_, fun _ _ _ => rfl, fun _ _ _ _ _ _ => rfl,
    fun _ _ _ _ => rfl, fun _ _ _ => rfl⟩
  · intro b folderId now s f hf hid
    have hf2 : f ∈ loadFoldersPure s now := hf
    simp only [deleteFolderE]
    cases hfind : findIdxAux (fun g => decide (g.id = folderId)) (loadFoldersPure s now) with
    | none =>
        exfalso
        have hs := findIdxAux_isSome_of_mem (p := fun g => decide (g.id = folderId)) hf2 (by simp [hid])
        rw [hfind] at hs
        exact absurd hs (by simp)
    | some r =>
        obtain ⟨i, folder⟩ := r
        simp [saveFoldersE]
  · intro folderId now s f hf hid
    have hf2 : f ∈ loadFoldersPure s now := hf
    simp only [deleteFolderE]
    cases hfind : findIdxAux (fun g => decide (g.id = folderId)) (loadFoldersPure s now) with
    | none =>
        exfalso
        have hs := findIdxAux_isSome_of_mem (p := fun g => decide (g.id = folderId)) hf2 (by simp [hid])
        rw [hfind] at hs
        exact absurd hs (by simp)
    | some r =>
        obtain ⟨i, folder⟩ := r
        simp [saveFoldersE, saveApplicationMappingsE]
  · intro folderId u now s f hf hid
    have hf2 : f ∈ loadFoldersPure s now := hf
    simp only [updateFolderE]
    cases hfind : (loadFoldersPure s now).find? (fun g => decide (g.id = folderId)) with
    | none =>
        exfalso
        have := List.find?_eq_none.mp hfind f hf2
        simp [hid] at this
    | some g => simp [saveFoldersE]

/-- C9 counterexample: setLastScanTime is a write operation whose underlying
failure is not re-raised; it reports success, contradicting the claim that
every write failure is surfaced. -/
theorem setLastScanTime_swallows_failure :
    setLastScanTimeE false "t0" emptyStore = Except.ok emptyStore ∧
    setLastScanTimeE false "t0" emptyStore ≠ Except.error () :=
  ⟨rfl, by simp [setLastScanTimeE]⟩

/-! ### Concrete counterexample states -/

/-- Two-folder state with app1 assigned to folder_a only. -/
def moveCexStore : Store :=
  { folders := some
      [{ id := "folder_a", name := "A", color := "c", icon := "i",
         applicationIds := ["app1"], position := 0, createdAt := "t" },
       { id := "folder_b", name := "B", color := "c", icon := "i",
         applicationIds := [], position := 1, createdAt := "t" }],
    settings := none, mappings := some [("app1", "folder_a")], lastScan := none }

/-- C1 counterexample: from a state satisfying membership exclusivity, a
moveAppToFolder call whose fromFolderId is null while the app sits in
folder_a duplicates the app: it is afterwards in folder_a and folder_b. -/
theorem move_null_from_breaks_exclusivity :
    exclusiveMembership (foldersOf moveCexStore "t") ∧
    ¬ exclusiveMembership
        (foldersOf (moveAppToFolder "app1" none "folder_b" "t" moveCexStore) "t") := by
  constructor
  · intro a
    by_cases h : a = "app1" <;>
      simp [appCount, foldersOf, loadFoldersPure, moveCexStore, List.countP_cons, h]
  · intro h
    exact absurd (h "app1") (by decide)

/-- C2 counterexample: deleting folder_games from the seeded default state
leaves positions 0,1,2,3,4,6,7 over seven folders: a gap at five, so the
position multiset is no longer 0..count-1. -/
theorem delete_breaks_density :
    ¬ denseOrder (foldersOf (deleteFolder "folder_games" "t1" (seedStore "t0")) "t1") := by
  unfold denseOrder
  decide

/-- Single-folder state with no catch-all folder present. -/
def deleteCexStore : Store :=
  { folders := some
      [{ id := "folder_a", name := "A", color := "c", icon := "i",
         applicationIds := ["app1"], position := 0, createdAt := "t" }],
    settings := none, mappings := some [], lastScan := none }

/-- C6 counterexample: deleting a folder when no folder_other exists removes
the folder but neither reassigns its app into any catch-all list nor updates
the mapping table entry to folder_other. -/
theorem delete_without_catchall :
    getMap (getMappings (deleteFolder "folder_a" "t" deleteCexStore)) "app1"
      ≠ some "folder_other" ∧
    foldersOf (deleteFolder "folder_a" "t" deleteCexStore) "t" = [] := by
  constructor
  · decide
  · rfl

/-- State where a1 sits both in the catch-all folder and in folder_a. -/
def otherCexStore : Store :=
  { folders := some
      [{ id := "folder_other", name := "O", color := "c", icon := "i",
         applicationIds := ["a1"], position := 0, createdAt := "t" },
       { id := "folder_a", name := "A", color := "c", icon := "i",
         applicationIds := ["a1"], position := 1, createdAt := "t" }],
    settings := none, mappings := some [], lastScan := none }

/-- C10 counterexample: after deleting folder_other, an app id that also sat
in another folder is still present in a folder list, contrary to the claim
that it is no longer present in any folder. -/
theorem delete_catchall_leaves_member :
    ¬ (∀ f ∈ foldersOf (deleteFolder "folder_other" "t" otherCexStore) "t",
        "a1" ∉ f.applicationIds) := by
  decide

/-! ### Characterization of deleteFolder by list decomposition -/

/-- Folder o after the includes-guarded pushes of all apps of folder x. -/
def pushApps (x o : LaunchmatFolder) : LaunchmatFolder :=
  { o with applicationIds := x.applicationIds.foldl pushUnique o.applicationIds }

/-- Mappings after pointing every app of folder x at folder_other. -/
def mapAllToOther (x : LaunchmatFolder) (m : Mappings) : Mappings :=
  x.applicationIds.foldl (fun m a => setMap m a "folder_other") m

theorem find?_decomp {pr : LaunchmatFolder → Bool} {s : List LaunchmatFolder}
    {x : LaunchmatFolder} (t : List LaunchmatFolder)
    (hs : ∀ f ∈ s, ¬ pr f = true) (hx : pr x = true) :
    (s ++ x :: t).find? pr = some x := by
  induction s with
  | nil => simpa [List.find?_cons] using List.find?_cons_of_pos t hx
  | cons a s ih =>
      rw [List.cons_append, List.find?_cons_of_neg _ (hs a (by simp))]
      exact ih (fun f hf => hs f (by simp [hf]))

theorem nodup_decomp_not_mem {p q : List LaunchmatFolder} {x : LaunchmatFolder}
    (hnd : ((p ++ x :: q).map (fun f => f.id)).Nodup) :
    (∀ f ∈ p, f.id ≠ x.id) ∧ (∀ f ∈ q, f.id ≠ x.id) := by
  rw [List.map_append, List.map_cons, List.nodup_append] at hnd
  obtain ⟨-, hxq, hdisj⟩ := hnd
  constructor
  · intro f hf heq
    exact hdisj (List.mem_map_of_mem _ hf) (by simp [heq])
  · intro f hf heq
    rw [List.nodup_cons] at hxq
    exact hxq.1 (heq ▸ List.mem_map_of_mem _ hf)

/-- The deleted id is absent: deleteFolder is a no-op returning the store
unchanged. -/
theorem deleteFolder_no_target {s : Store} {now folderId : String}
    (h : ∀ f ∈ foldersOf s now, f.id ≠ folderId) :
    deleteFolder folderId now s = s := by
  have hidx : findIdxAux (fun f => decide (f.id = folderId)) (loadFoldersPure s now)
      = none :=
    findIdxAux_eq_none (fun f hf => by simp [h f hf])
  simp only [deleteFolder, hidx]

/-- The deleted folder exists but no folder_other does: the folder is spliced
out, the apps are dropped, the mappings keep their old value. -/
theorem deleteFolder_decomp_no_other {s : Store} {now folderId : String}
    {p q : List LaunchmatFolder} {x : LaunchmatFolder}
    (hfs : foldersOf s now = p ++ x :: q)
    (hx : x.id = folderId)
    (hp : ∀ f ∈ p, f.id ≠ folderId)
    (hno : ∀ f ∈ p ++ x :: q, f.id ≠ "folder_other") :
    deleteFolder folderId now s =
      { s with folders := some (p ++ q), mappings := some (getMappings s) } := by
  have hfs' : loadFoldersPure s now = p ++ x :: q := hfs
  have hidx : findIdxAux (fun f => decide (f.id = folderId)) (p ++ x :: q)
      = some (p.length, x) :=
    findIdxAux_decomp _ (fun f hf => by simp [hp f hf]) (by simp [hx])
  have hfind : (p ++ x :: q).find? (fun f => decide (f.id = "folder_other")) = none :=
    List.find?_eq_none.mpr (fun f hf => by simp [hno f hf])
  simp only [deleteFolder, hfs', hidx, hfind]
  rw [eraseIdx_decomp]

/-- The deleted folder is itself the first folder_other: the includes-guarded
pushes change nothing, the mappings are pointed at the (now removed)
folder_other, and the folder is spliced out. -/
theorem deleteFolder_decomp_self_other {s : Store} {now : String}
    {p q : List LaunchmatFolder} {x : LaunchmatFolder}
    (hfs : foldersOf s now = p ++ x :: q)
    (hx : x.id = "folder_other")
    (hp : ∀ f ∈ p, f.id ≠ "folder_other") :
    deleteFolder "folder_other" now s =
      { s with folders := some (p ++ q),
               mappings := some (mapAllToOther x (getMappings s)) } := by
  have hfs' : loadFoldersPure s now = p ++ x :: q := hfs
  have hidx : findIdxAux (fun f => decide (f.id = "folder_other")) (p ++ x :: q)
      = some (p.length, x) :=
    findIdxAux_decomp _ (fun f hf => by simp [hp f hf]) (by simp [hx])
  have hfind : (p ++ x :: q).find? (fun f => decide (f.id = "folder_other")) = some x :=
    find?_decomp _ (fun f hf => by simp [hp f hf]) (by simp [hx])
  have hself : pushApps x x = x := by
    unfold pushApps
    rw [foldl_pushUnique_of_subset (fun a ha => ha)]
  have hupd : updateFirst (fun f => decide (f.id = "folder_other"))
      (fun o => { o with applicationIds := x.applicationIds.foldl pushUnique o.applicationIds })
      (p ++ x :: q) = p ++ x :: q := by
    rw [updateFirst_decomp _ _ (fun f hf => by simp [hp f hf]) (by simp [hx])]
    have : { x with applicationIds := x.applicationIds.foldl pushUnique x.applicationIds } = x :=
      hself
    rw [this]
  simp only [deleteFolder, hfs', hidx, hfind, hupd]
  rw [eraseIdx_decomp]
  rfl

/-- The deleted folder is distinct from folder_other and the first
folder_other sits before it: apps are pushed onto that folder, mappings are
updated, the folder is spliced out. -/
theorem deleteFolder_decomp_other_left {s : Store} {now folderId : String}
    {p1 p2 q : List LaunchmatFolder} {o x : LaunchmatFolder}
    (hfs : foldersOf s now = (p1 ++ o :: p2) ++ x :: q)
    (hx : x.id = folderId)
    (hp : ∀ f ∈ p1 ++ o :: p2, f.id ≠ folderId)
    (ho : o.id = "folder_other")
    (hp1 : ∀ f ∈ p1, f.id ≠ "folder_other") :
    deleteFolder folderId now s =
      { s with
        folders := some ((p1 ++ pushApps x o :: p2) ++ q),
        mappings := some (mapAllToOther x (getMappings s)) } := by
  have hfs' : loadFoldersPure s now = (p1 ++ o :: p2) ++ x :: q := hfs
  have hidx : findIdxAux (fun f => decide (f.id = folderId)) ((p1 ++ o :: p2) ++ x :: q)
      = some ((p1 ++ o :: p2).length, x) :=
    findIdxAux_decomp _ (fun f hf => by simp [hp f hf]) (by simp [hx])
  have hshape : (p1 ++ o :: p2) ++ x :: q = p1 ++ o :: (p2 ++ x :: q) := by
    simp
  have hfind : ((p1 ++ o :: p2) ++ x :: q).find?
      (fun f => decide (f.id = "folder_other")) = some o := by
    rw [hshape]
    exact find?_decomp _ (fun f hf => by simp [hp1 f hf]) (by simp [ho])
  have hupd : updateFirst (fun f => decide (f.id = "folder_other"))
      (fun g => { g with applicationIds := x.applicationIds.foldl pushUnique g.applicationIds })
      ((p1 ++ o :: p2) ++ x :: q)
      = (p1 ++ pushApps x o :: p2) ++ x :: q := by
    rw [hshape,
      updateFirst_decomp _ _ (fun f hf => by simp [hp1 f hf]) (by simp [ho])]
    simp [pushApps]
  have hlen : (p1 ++ o :: p2).length = (p1 ++ pushApps x o :: p2).length := by
    simp
  simp only [deleteFolder, hfs', hidx, hfind, hupd]
  rw [hlen, eraseIdx_decomp]
  rfl

/-- The deleted folder is distinct from folder_other and the first
folder_other sits after it. -/
theorem deleteFolder_decomp_other_right {s : Store} {now folderId : String}
    {p q1 q2 : List LaunchmatFolder} {o x : LaunchmatFolder}
    (hfs : foldersOf s now = p ++ x :: (q1 ++ o :: q2))
    (hx : x.id = folderId)
    (hp : ∀ f ∈ p, f.id ≠ folderId)
    (ho : o.id = "folder_other")
    (hxo : x.id ≠ "folder_other")
    (hpo : ∀ f ∈ p, f.id ≠ "folder_other")
    (hq1 : ∀ f ∈ q1, f.id ≠ "folder_other") :
    deleteFolder folderId now s =
      { s with
        folders := some (p ++ (q1 ++ pushApps x o :: q2)),
        mappings := some (mapAllToOther x (getMappings s)) } := by
  have hfs' : loadFoldersPure s now = p ++ x :: (q1 ++ o :: q2) := hfs
  have hidx : findIdxAux (fun f => decide (f.id = folderId))
      (p ++ x :: (q1 ++ o :: q2)) = some (p.length, x) :=
    findIdxAux_decomp _ (fun f hf => by simp [hp f hf]) (by simp [hx])
  have hshape : p ++ x :: (q1 ++ o :: q2) = (p ++ x :: q1) ++ o :: q2 := by
    simp
  have hpxq : ∀ f ∈ p ++ x :: q1, ¬ (decide (f.id = "folder_other")) = true := by
    intro f hf
    rcases List.mem_append.mp hf with hf | hf
    · simp [hpo f hf]
    · rcases List.mem_cons.mp hf with hf | hf
      · simp [hf, hxo]
      · simp [hq1 f hf]
  have hfind : (p ++ x :: (q1 ++ o :: q2)).find?
      (fun f => decide (f.id = "folder_other")) = some o := by
    rw [hshape]
    exact find?_decomp _ hpxq (by simp [ho])
  have hupd : updateFirst (fun f => decide (f.id = "folder_other"))
      (fun g => { g with applicationIds := x.applicationIds.foldl pushUnique g.applicationIds })
      (p ++ x :: (q1 ++ o :: q2))
      = p ++ x :: (q1 ++ pushApps x o :: q2) := by
    rw [hshape, updateFirst_decomp _ _ hpxq (by simp [ho])]
    simp [pushApps]
  simp only [deleteFolder, hfs', hidx, hfind, hupd]
  rw [eraseIdx_decomp]
  rfl

/-! ### Membership exclusivity across the store operations -/

/-- Well-formed folder list: pairwise-exclusive app membership and
duplicate-free folder ids. -/
def GoodFolders (fs : List LaunchmatFolder) : Prop :=
  exclusiveMembership fs ∧ (fs.map (fun f => f.id)).Nodup

/-- Well-formed store: whatever timestamp a read happens at, the folder list
it yields is well-formed. -/
def GoodStore (s : Store) : Prop :=
  ∀ now, GoodFolders (foldersOf s now)

theorem appCount_append (a : String) (l1 l2 : List LaunchmatFolder) :
    appCount a (l1 ++ l2) = appCount a l1 + appCount a l2 := by
  simp [appCount, List.countP_append]

theorem appCount_cons (a : String) (f : LaunchmatFolder) (l : List LaunchmatFolder) :
    appCount a (f :: l) = appCount a l + (if a ∈ f.applicationIds then 1 else 0) := by
  simp [appCount, List.countP_cons]

theorem goodFolders_of_erase {p q : List LaunchmatFolder} {x : LaunchmatFolder}
    (h : GoodFolders (p ++ x :: q)) : GoodFolders (p ++ q) := by
  obtain ⟨hex, hnd⟩ := h
  constructor
  · intro a
    have h1 := hex a
    rw [appCount_append, appCount_cons] at h1
    rw [appCount_append]
    omega
  · have hsub : (((p ++ q).map (fun f => f.id))).Sublist
        ((p ++ x :: q).map (fun f => f.id)) :=
      List.Sublist.map _ (List.Sublist.append_left (List.sublist_cons_self x q) p)
    exact List.Nodup.sublist hsub hnd

theorem chi_pushApps_le (a : String) (x o : LaunchmatFolder) :
    (if a ∈ (pushApps x o).applicationIds then 1 else 0)
      ≤ (if a ∈ o.applicationIds then 1 else 0)
        + (if a ∈ x.applicationIds then 1 else 0) := by
  by_cases h : a ∈ (pushApps x o).applicationIds
  · have h2 : a ∈ o.applicationIds ∨ a ∈ x.applicationIds := by
      have := (mem_foldl_pushUnique a x.applicationIds o.applicationIds).mp h
      exact this
    rcases h2 with h2 | h2 <;> simp [h, h2]
  · simp [h]

theorem goodFolders_push_left {p1 p2 q : List LaunchmatFolder} {x o : LaunchmatFolder}
    (h : GoodFolders ((p1 ++ o :: p2) ++ x :: q)) :
    GoodFolders ((p1 ++ pushApps x o :: p2) ++ q) := by
  obtain ⟨hex, hnd⟩ := h
  constructor
  · intro a
    have h1 := hex a
    have h2 := chi_pushApps_le a x o
    rw [appCount_append, appCount_append, appCount_cons, appCount_cons] at h1
    rw [appCount_append, appCount_append, appCount_cons]
    omega
  · rw [List.map_append, List.map_append, List.map_cons] at hnd ⊢
    rw [List.map_cons] at hnd
    have hids : (pushApps x o).id = o.id := rfl
    rw [hids]
    refine List.Nodup.sublist ?_ hnd
    exact List.Sublist.append_left (List.sublist_cons_self _ _) _

theorem goodFolders_push_right {p q1 q2 : List LaunchmatFolder} {x o : LaunchmatFolder}
    (h : GoodFolders (p ++ x :: (q1 ++ o :: q2))) :
    GoodFolders (p ++ (q1 ++ pushApps x o :: q2)) := by
  obtain ⟨hex, hnd⟩ := h
  constructor
  · intro a
    have h1 := hex a
    have h2 := chi_pushApps_le a x o
    rw [appCount_append, appCount_cons, appCount_append, appCount_cons] at h1
    rw [appCount_append, appCount_append, appCount_cons]
    omega
  · rw [List.map_append, List.map_cons, List.map_append, List.map_cons] at hnd
    rw [List.map_append, List.map_append, List.map_cons]
    have hids : (pushApps x o).id = o.id := rfl
    rw [hids]
    refine List.Nodup.sublist ?_ hnd
    exact List.Sublist.append_left (List.sublist_cons_self _ _) _


theorem pushApps_id (x o : LaunchmatFolder) : (pushApps x o).id = o.id := rfl

theorem mem_pushApps {a : String} (x o : LaunchmatFolder)
    (h : a ∈ x.applicationIds) : a ∈ (pushApps x o).applicationIds :=
  (mem_foldl_pushUnique a _ _).mpr (Or.inr h)

theorem getMap_mapAllToOther {a : String} {x : LaunchmatFolder} (m : Mappings)
    (h : a ∈ x.applicationIds) : getMap (mapAllToOther x m) a = some "folder_other" :=
  getMap_foldl_setMap_mem m _ h

/-- Existence form of the deleteFolder characterization when the target and a
distinct catch-all folder both exist and folder ids are distinct. -/
theorem deleteFolder_target_exists {s : Store} {now folderId : String}
    {tf : LaunchmatFolder}
    (hnd : ((foldersOf s now).map (fun f => f.id)).Nodup)
    (htf : tf ∈ foldersOf s now)
    (hid : tf.id = folderId)
    (hoth : ∃ g ∈ foldersOf s now, g.id = "folder_other")
    (hne : folderId ≠ "folder_other") :
    ∃ (o : LaunchmatFolder) (F2 : List LaunchmatFolder),
      deleteFolder folderId now s =
        { s with folders := some F2,
                 mappings := some (mapAllToOther tf (getMappings s)) } ∧
      o.id = "folder_other" ∧ pushApps tf o ∈ F2 ∧
      (∀ f ∈ F2, f.id ≠ folderId) ∧
      (GoodFolders (foldersOf s now) → GoodFolders F2) := by
  obtain ⟨g, hg, hgid⟩ := hoth
  obtain ⟨p, q, hpq⟩ := List.append_of_mem htf
  have hndpq : ((p ++ tf :: q).map (fun f => f.id)).Nodup := hpq ▸ hnd
  have htgt := nodup_decomp_not_mem hndpq
  have hgtf : g ≠ tf := by
    intro h
    rw [h, hid] at hgid
    exact hne hgid
  have hgpq : g ∈ p ++ tf :: q := hpq ▸ hg
  rcases List.mem_append.mp hgpq with hgp | hgq
  · -- the catch-all folder precedes the deleted folder
    obtain ⟨p1, p2, hp12⟩ := List.append_of_mem hgp
    have hfs : foldersOf s now = (p1 ++ g :: p2) ++ tf :: q := by
      rw [hpq, hp12]
    have hshape : (p1 ++ g :: p2) ++ tf :: q = p1 ++ g :: (p2 ++ tf :: q) := by simp
    have hndg : ((p1 ++ g :: (p2 ++ tf :: q)).map (fun f => f.id)).Nodup := by
      rw [← hshape]; exact hfs ▸ hnd
    have hother := nodup_decomp_not_mem hndg
    have hdel := deleteFolder_decomp_other_left hfs hid
      (fun f hf => by
        rw [← hid]
        exact htgt.1 f (by rw [hp12]; exact hf))
      hgid (fun f hf => hgid ▸ hother.1 f hf)
    refine ⟨g, (p1 ++ pushApps tf g :: p2) ++ q, hdel, hgid, by simp, ?_, ?_⟩
    · intro f hf
      rcases List.mem_append.mp hf with hf | hf
      · rcases List.mem_append.mp hf with hf | hf
        · exact hid ▸ htgt.1 f (hp12 ▸ List.mem_append_left _ hf)
        · rcases List.mem_cons.mp hf with hf | hf
          · rw [hf, pushApps_id, hgid]
            exact fun h => hne h.symm
          · exact hid ▸ htgt.1 f (hp12 ▸ List.mem_append_right _ (List.mem_cons_of_mem _ hf))
      · exact hid ▸ htgt.2 f hf
    · intro hgf
      exact goodFolders_push_left (by rw [← hfs]; exact hgf)
  · -- the catch-all folder follows the deleted folder
    rcases List.mem_cons.mp hgq with hf | hgq2
    · exact absurd hf hgtf
    obtain ⟨q1, q2, hq12⟩ := List.append_of_mem hgq2
    have hfs : foldersOf s now = p ++ tf :: (q1 ++ g :: q2) := by
      rw [hpq, hq12]
    have hshape : p ++ tf :: (q1 ++ g :: q2) = (p ++ tf :: q1) ++ g :: q2 := by simp
    have hndg : (((p ++ tf :: q1) ++ g :: q2).map (fun f => f.id)).Nodup := by
      rw [← hshape]; exact hfs ▸ hnd
    have hother := nodup_decomp_not_mem hndg
    have hxo : tf.id ≠ "folder_other" := by rw [hid]; exact hne
    have hdel := deleteFolder_decomp_other_right hfs hid
      (fun f hf => hid ▸ htgt.1 f hf)
      hgid hxo
      (fun f hf => hgid ▸ hother.1 f (List.mem_append_left _ hf))
      (fun f hf => hgid ▸ hother.1 f (List.mem_append_right _ (List.mem_cons_of_mem _ hf)))
    refine ⟨g, p ++ (q1 ++ pushApps tf g :: q2), hdel, hgid, by simp, ?_, ?_⟩
    · intro f hf
      rcases List.mem_append.mp hf with hf | hf
      · exact hid ▸ htgt.1 f hf
      · rcases List.mem_append.mp hf with hf | hf
        · exact hid ▸ htgt.2 f (hq12 ▸ List.mem_append_left _ hf)
        · rcases List.mem_cons.mp hf with hf | hf
          · rw [hf, pushApps_id, hgid]
            exact fun h => hne h.symm
          · exact hid ▸ htgt.2 f (hq12 ▸ List.mem_append_right _ (List.mem_cons_of_mem _ hf))
    · intro hgf
      exact goodFolders_push_right (by rw [← hfs]; exact hgf)

/-- C6 (amended): when the stored state has duplicate-free folder ids and
contains both the target folder and the catch-all folder folder_other, and
the target is not the catch-all itself, deleteFolder moves every app id of
the target into the applicationIds of folder_other, points the mapping entry
of each such app at folder_other, and removes the target folder; when no
folder carries the requested id, the operation returns the store unchanged
and is not a failure. -/
theorem deleteFolder_reassigns_to_catchall (s : Store) (now folderId : String)
    (tf : LaunchmatFolder)
    (hnd : ((foldersOf s now).map (fun f => f.id)).Nodup)
    (htf : tf ∈ foldersOf s now)
    (hid : tf.id = folderId)
    (hoth : ∃ g ∈ foldersOf s now, g.id = "folder_other")
    (hne : folderId ≠ "folder_other") :
    (∀ a ∈ tf.applicationIds,
      (∃ g ∈ foldersOf (deleteFolder folderId now s) now,
        g.id = "folder_other" ∧ a ∈ g.applicationIds) ∧
      getMap (getMappings (deleteFolder folderId now s)) a = some "folder_other") ∧
    (∀ f ∈ foldersOf (deleteFolder folderId now s) now, f.id ≠ folderId) ∧
    (∀ (s2 : Store) (now2 fid2 : String),
      (∀ f ∈ foldersOf s2 now2, f.id ≠ fid2) → deleteFolder fid2 now2 s2 = s2) := by
  obtain ⟨o, F2, hdel, hoid, hmem, hids, -⟩ :=
    deleteFolder_target_exists hnd htf hid hoth hne
  have hF : foldersOf (deleteFolder folderId now s) now = F2 := by
    rw [hdel]; rfl
  have hM : getMappings (deleteFolder folderId now s)
      = mapAllToOther tf (getMappings s) := by
    rw [hdel]; rfl
  refine ⟨?_, ?_, fun s2 now2 fid2 h => deleteFolder_no_target h⟩
  · intro a ha
    refine ⟨⟨pushApps tf o, hF ▸ hmem, by rw [pushApps_id, hoid], mem_pushApps tf o ha⟩, ?_⟩
    rw [hM]
    exact getMap_mapAllToOther _ ha
  · intro f hf
    exact hids f (hF ▸ hf)

/-- C10 (amended): deleting folder_other removes the catch-all folder itself;
each app id that sat in its applicationIds gets (or keeps) the mapping entry
folder_other, which now names a folder that no longer exists, and, provided
the app id did not also sit in some other folder, it is afterwards present in
no folder at all. -/
theorem deleteFolder_catchall (s : Store) (now : String) (of' : LaunchmatFolder)
    (hnd : ((foldersOf s now).map (fun f => f.id)).Nodup)
    (hof : of' ∈ foldersOf s now)
    (hid : of'.id = "folder_other") :
    (∀ f ∈ foldersOf (deleteFolder "folder_other" now s) now, f.id ≠ "folder_other") ∧
    (∀ a ∈ of'.applicationIds,
      getMap (getMappings (deleteFolder "folder_other" now s)) a = some "folder_other" ∧
      ((∀ f ∈ foldersOf s now, a ∈ f.applicationIds → f.id = "folder_other") →
        ∀ f ∈ foldersOf (deleteFolder "folder_other" now s) now,
          a ∉ f.applicationIds)) := by
  obtain ⟨p, q, hpq⟩ := List.append_of_mem hof
  have hndpq : ((p ++ of' :: q).map (fun f => f.id)).Nodup := hpq ▸ hnd
  have hother := nodup_decomp_not_mem hndpq
  have hdel := deleteFolder_decomp_self_other hpq hid
    (fun f hf => hid ▸ hother.1 f hf)
  have hF : foldersOf (deleteFolder "folder_other" now s) now = p ++ q := by
    rw [hdel]; rfl
  have hM : getMappings (deleteFolder "folder_other" now s)
      = mapAllToOther of' (getMappings s) := by
    rw [hdel]; rfl
  constructor
  · intro f hf
    rw [hF] at hf
    rcases List.mem_append.mp hf with hf | hf
    · exact hid ▸ hother.1 f hf
    · exact hid ▸ hother.2 f hf
  · intro a ha
    refine ⟨by rw [hM]; exact getMap_mapAllToOther _ ha, ?_⟩
    intro hexcl f hf hmem
    rw [hF] at hf
    rcases List.mem_append.mp hf with hf | hf
    · exact hother.1 f hf
        ((hexcl f (by rw [hpq]; exact List.mem_append_left _ hf) hmem).trans hid.symm)
    · exact hother.2 f hf
        ((hexcl f (by rw [hpq]; exact List.mem_append_right _ (List.mem_cons_of_mem _ hf))
          hmem).trans hid.symm)

/-- Games folder holding app1, used for concrete delete scenarios. -/
def gamesFolder : LaunchmatFolder :=
  { id := "folder_games", name := "Games", color := "c", icon := "i",
    applicationIds := ["app1"], position := 0, createdAt := "t" }

/-- Empty catch-all folder for the same scenario. -/
def otherFolder0 : LaunchmatFolder :=
  { id := "folder_other", name := "Other", color := "c", icon := "i",
    applicationIds := [], position := 1, createdAt := "t" }

/-- Two-folder store matching the spec delete scenario. -/
def gamesStore : Store :=
  { folders := some [gamesFolder, otherFolder0], settings := none,
    mappings := some [("app1", "folder_games")], lastScan := none }

/-- C6 witness: the delete scenario of the spec, run through the amended
theorem with every hypothesis discharged concretely. -/
theorem deleteFolder_reassigns_witness :
    (∃ g ∈ foldersOf (deleteFolder "folder_games" "t" gamesStore) "t",
      g.id = "folder_other" ∧ "app1" ∈ g.applicationIds) ∧
    getMap (getMappings (deleteFolder "folder_games" "t" gamesStore)) "app1"
      = some "folder_other" ∧
    (∀ f ∈ foldersOf (deleteFolder "folder_games" "t" gamesStore) "t",
      f.id ≠ "folder_games") ∧
    deleteFolder "folder_nope" "t" gamesStore = gamesStore := by
  have h := deleteFolder_reassigns_to_catchall gamesStore "t" "folder_games" gamesFolder
    (by decide) (by decide) rfl ⟨otherFolder0, by decide, rfl⟩ (by decide)
  exact ⟨(h.1 "app1" (by decide)).1, (h.1 "app1" (by decide)).2, h.2.1,
    h.2.2 gamesStore "t" "folder_nope" (by decide)⟩

/-- C9 witness: several of the fallible compound mutations applied at the
concrete games store, with the target-exists hypotheses discharged. -/
theorem storage_error_policy_witness :
    moveAppToFolderE false true "app1" none "folder_other" "t" gamesStore
      = Except.error () ∧
    deleteFolderE false true "folder_games" "t" gamesStore = Except.error () ∧
    deleteFolderE true false "folder_games" "t" gamesStore = Except.error () ∧
    updateFolderE false "folder_games" ⟨some "N", none, none⟩ "t" gamesStore
      = Except.error () ∧
    autoCategorizeNewAppsE false true [] [] gamesStore = ([], gamesStore) := by
  obtain ⟨-, -, -, -, -, -, -, -, h9, -, -, h12, h13, h14, -, -, h17, -⟩ :=
    storage_error_policy
  exact ⟨h9 true "app1" none "folder_other" "t" gamesStore,
    h12 true "folder_games" "t" gamesStore gamesFolder (by decide) rfl,
    h13 "folder_games" "t" gamesStore gamesFolder (by decide) rfl,
    h14 "folder_games" ⟨some "N", none, none⟩ "t" gamesStore gamesFolder (by decide) rfl,
    h17 true [] [] gamesStore⟩

/-- Catch-all folder holding a1, alone in its store. -/
def soloOtherFolder : LaunchmatFolder :=
  { id := "folder_other", name := "O", color := "c", icon := "i",
    applicationIds := ["a1"], position := 0, createdAt := "t" }

/-- Store holding only the catch-all folder. -/
def soloOtherStore : Store :=
  { folders := some [soloOtherFolder], settings := none,
    mappings := some [], lastScan := none }

/-- C10 witness: deleting the catch-all folder itself, with every hypothesis
of the amended theorem discharged concretely. -/
theorem deleteFolder_catchall_witness :
    (∀ f ∈ foldersOf (deleteFolder "folder_other" "t" soloOtherStore) "t",
      f.id ≠ "folder_other") ∧
    getMap (getMappings (deleteFolder "folder_other" "t" soloOtherStore)) "a1"
      = some "folder_other" ∧
    (∀ f ∈ foldersOf (deleteFolder "folder_other" "t" soloOtherStore) "t",
      "a1" ∉ f.applicationIds) := by
  have h := deleteFolder_catchall soloOtherStore "t" soloOtherFolder
    (by decide) (by decide) rfl
  exact ⟨h.1, (h.2 "a1" (by decide)).1, (h.2 "a1" (by decide)).2 (by decide)⟩

/-! ### Idempotence of autoCategorizeNewApps -/

/-- A folder has grown: same id, and its application list only gained
entries. -/
def folderGrow (f g : LaunchmatFolder) : Prop :=
  f.id = g.id ∧ ∀ a ∈ f.applicationIds, a ∈ g.applicationIds

/-- Pointwise growth of a folder list. -/
def Grows (fs gs : List LaunchmatFolder) : Prop :=
  List.Forall₂ folderGrow fs gs

theorem folderGrow_refl (f : LaunchmatFolder) : folderGrow f f :=
  ⟨rfl, fun _ h => h⟩

theorem folderGrow_trans {f g h : LaunchmatFolder}
    (h1 : folderGrow f g) (h2 : folderGrow g h) : folderGrow f h :=
  ⟨h1.1.trans h2.1, fun a ha => h2.2 a (h1.2 a ha)⟩

theorem Grows_refl (fs : List LaunchmatFolder) : Grows fs fs := by
  induction fs with
  | nil => exact List.Forall₂.nil
  | cons f fs ih => exact List.Forall₂.cons (folderGrow_refl f) ih

theorem Grows_trans {fs gs hs : List LaunchmatFolder}
    (h1 : Grows fs gs) (h2 : Grows gs hs) : Grows fs hs := by
  induction h1 generalizing hs with
  | nil => cases h2; exact List.Forall₂.nil
  | cons hfg _ ih =>
      cases h2 with
      | cons hgh h2t => exact List.Forall₂.cons (folderGrow_trans hfg hgh) (ih h2t)

theorem updateFirst_grows {p : LaunchmatFolder → Bool}
    {g : LaunchmatFolder → LaunchmatFolder} (hg : ∀ f, folderGrow f (g f))
    (l : List LaunchmatFolder) : Grows l (updateFirst p g l) := by
  induction l with
  | nil => exact List.Forall₂.nil
  | cons a l ih =>
      by_cases hp : p a = true
      · rw [updateFirst_cons_pos _ hp]
        exact List.Forall₂.cons (hg a) (Grows_refl l)
      · rw [updateFirst_cons_neg _ hp]
        exact List.Forall₂.cons (folderGrow_refl a) ih

theorem autoCatStep_grows (st : List LaunchmatFolder × Mappings) (app : Application) :
    Grows st.1 (autoCatStep st app).1 := by
  simp only [autoCatStep]
  cases hfind : st.1.find? (fun f => decide (f.id = getCategoryForApp app st.1)) with
  | none => exact Grows_refl st.1
  | some tf =>
      by_cases hmem : app.id ∈ tf.applicationIds
      · simp only [hmem, if_pos]
        exact Grows_refl st.1
      · simp only [hmem, ite_false]
        apply updateFirst_grows
        intro f
        exact ⟨rfl, fun a ha => by simp [ha]⟩

theorem foldl_autoCatStep_grows (l : List Application)
    (st : List LaunchmatFolder × Mappings) :
    Grows st.1 (l.foldl autoCatStep st).1 := by
  induction l generalizing st with
  | nil => exact Grows_refl st.1
  | cons x l ih =>
      exact Grows_trans (autoCatStep_grows st x) (ih (autoCatStep st x))

theorem find?_id_grows {fs gs : List LaunchmatFolder} (h : Grows fs gs)
    (tid : String) :
    (fs.find? (fun f => decide (f.id = tid)) = none
      → gs.find? (fun f => decide (f.id = tid)) = none) ∧
    (∀ tf, fs.find? (fun f => decide (f.id = tid)) = some tf →
      ∃ tg, gs.find? (fun f => decide (f.id = tid)) = some tg ∧ folderGrow tf tg) := by
  induction h with
  | nil => exact ⟨fun _ => rfl, fun tf h => by simp at h⟩
  | @cons f g fs gs hfg _ ih =>
      have hid : f.id = g.id := hfg.1
      by_cases hp : f.id = tid
      · constructor
        · intro hn
          rw [List.find?_cons_of_pos _ (by simp [hp])] at hn
          exact absurd hn (by simp)
        · intro tf htf
          rw [List.find?_cons_of_pos _ (by simp [hp])] at htf
          refine ⟨g, ?_, by cases htf; exact hfg⟩
          rw [List.find?_cons_of_pos _ (by simp [← hid, hp])]
      · have hgp : ¬ g.id = tid := by rw [← hid]; exact hp
        constructor
        · intro hn
          rw [List.find?_cons_of_neg _ (by simp [hp])] at hn
          rw [List.find?_cons_of_neg _ (by simp [hgp])]
          exact ih.1 hn
        · intro tf htf
          rw [List.find?_cons_of_neg _ (by simp [hp])] at htf
          obtain ⟨tg, htg, hgrow⟩ := ih.2 tf htf
          refine ⟨tg, ?_, hgrow⟩
          rw [List.find?_cons_of_neg _ (by simp [hgp])]
          exact htg

theorem getCategoryForApp_grows {fs gs : List LaunchmatFolder} (h : Grows fs gs)
    (app : Application) : getCategoryForApp app fs = getCategoryForApp app gs := by
  simp only [getCategoryForApp]
  cases hfs : fs.find? (fun f => decide (f.id = rawTargetFolderId app)) with
  | none =>
      rw [(find?_id_grows h _).1 hfs]
  | some tf =>
      obtain ⟨tg, htg, -⟩ := (find?_id_grows h _).2 tf hfs
      rw [htg]

/-- Whether the loop body leaves its state untouched for the given
application: the target folder is missing, or it already holds the app. -/
def stepNoop (fs : List LaunchmatFolder) (app : Application) : Prop :=
  fs.find? (fun f => decide (f.id = getCategoryForApp app fs)) = none ∨
  ∃ tf, fs.find? (fun f => decide (f.id = getCategoryForApp app fs)) = some tf ∧
    app.id ∈ tf.applicationIds

theorem stepNoop_apply {fs : List LaunchmatFolder} {app : Application}
    (h : stepNoop fs app) (m : Mappings) : autoCatStep (fs, m) app = (fs, m) := by
  simp only [autoCatStep]
  rcases h with h | ⟨tf, htf, hmem⟩
  · simp only [h]
  · simp only [htf, hmem, if_pos]

theorem stepNoop_grows {fs gs : List LaunchmatFolder} {app : Application}
    (hg : Grows fs gs) (h : stepNoop fs app) : stepNoop gs app := by
  have hcat := getCategoryForApp_grows hg app
  rcases h with h | ⟨tf, htf, hmem⟩
  · exact Or.inl (by rw [← hcat]; exact (find?_id_grows hg _).1 h)
  · obtain ⟨tg, htg, hgrow⟩ := (find?_id_grows hg _).2 tf htf
    exact Or.inr ⟨tg, by rw [← hcat]; exact htg, hgrow.2 _ hmem⟩

theorem autoCatStep_isSome {st : List LaunchmatFolder × Mappings}
    {k : String} (app : Application) (h : (getMap st.2 k).isSome) :
    (getMap (autoCatStep st app).2 k).isSome := by
  simp only [autoCatStep]
  cases hfind : st.1.find? (fun f => decide (f.id = getCategoryForApp app st.1)) with
  | none => exact h
  | some tf =>
      by_cases hmem : app.id ∈ tf.applicationIds
      · simp only [hmem, if_pos]
        exact h
      · simp only [hmem, if_neg, ite_false]
        exact isSome_getMap_setMap _ _ h

theorem foldl_autoCatStep_isSome {st : List LaunchmatFolder × Mappings}
    {k : String} (l : List Application) (h : (getMap st.2 k).isSome) :
    (getMap (l.foldl autoCatStep st).2 k).isSome := by
  induction l generalizing st with
  | nil => exact h
  | cons x l ih => exact ih (autoCatStep_isSome x h)

/-- After the categorization fold, every processed application is either
recorded in the resulting mappings or a no-op for the resulting folders. -/
theorem autoCat_fold_post (l : List Application) :
    ∀ (st : List LaunchmatFolder × Mappings), ∀ app ∈ l,
      (getMap (l.foldl autoCatStep st).2 app.id).isSome = true ∨
      stepNoop (l.foldl autoCatStep st).1 app := by
  induction l with
  | nil => intro st app h; simp at h
  | cons x l ih =>
      intro st app hmem
      rw [List.foldl_cons]
      rcases List.mem_cons.mp hmem with rfl | hmem2
      · -- the head application
        cases hfind : st.1.find? (fun f => decide (f.id = getCategoryForApp app st.1)) with
        | none =>
            have hstep : autoCatStep st app = st := by
              simp only [autoCatStep, hfind]
            right
            rw [hstep]
            exact stepNoop_grows (foldl_autoCatStep_grows l st) (Or.inl hfind)
        | some tf =>
            by_cases hm : app.id ∈ tf.applicationIds
            · have hstep : autoCatStep st app = st := by
                simp only [autoCatStep, hfind, hm, if_pos]
              right
              rw [hstep]
              exact stepNoop_grows (foldl_autoCatStep_grows l st)
                (Or.inr ⟨tf, hfind, hm⟩)
            · left
              have hstep : (autoCatStep st app).2
                  = setMap st.2 app.id (getCategoryForApp app st.1) := by
                simp only [autoCatStep, hfind, hm, ite_false]
              have hsome : (getMap (autoCatStep st app).2 app.id).isSome := by
                rw [hstep, getMap_setMap_self]
                rfl
              exact foldl_autoCatStep_isSome l hsome
      · exact ih (autoCatStep st x) app hmem2

theorem foldl_fixed {st : List LaunchmatFolder × Mappings} {l : List Application}
    (h : ∀ x ∈ l, autoCatStep st x = st) : l.foldl autoCatStep st = st := by
  induction l with
  | nil => rfl
  | cons x l ih =>
      rw [List.foldl_cons, h x (by simp)]
      exact ih (fun y hy => h y (by simp [hy]))

/-- C7: autoCategorizeNewApps is idempotent: running it a second time with the
same application list, on the folders and store produced by the first run,
returns exactly the same folders and the same store (the second run performs
no further mutation, since every application is either mapped or a no-op). -/
theorem autoCategorize_idempotent (apps : List Application)
    (fs0 : List LaunchmatFolder) (s0 : Store) :
    autoCategorizeNewApps apps (autoCategorizeNewApps apps fs0 s0).1
        (autoCategorizeNewApps apps fs0 s0).2
      = autoCategorizeNewApps apps fs0 s0 := by
  set m0 := getMappings s0 with hm0
  set uncat1 := apps.filter (fun a => (getMap m0 a.id).isNone) with hu1
  set r := uncat1.foldl autoCatStep (fs0, m0) with hrdef
  have hrun1 : autoCategorizeNewApps apps fs0 s0
      = (r.1, { s0 with folders := some r.1, mappings := some r.2 }) := rfl
  rw [hrun1]
  have hm1 : getMappings { s0 with folders := some r.1, mappings := some r.2 } = r.2 := rfl
  have hfix : ∀ app ∈ apps.filter (fun a => (getMap r.2 a.id).isNone),
      autoCatStep (r.1, r.2) app = (r.1, r.2) := by
    intro app happ
    have happs : app ∈ apps := List.mem_of_mem_filter happ
    have hnone : (getMap r.2 app.id).isNone := by
      have := List.of_mem_filter happ
      simpa using this
    have hmem1 : app ∈ uncat1 := by
      rw [hu1]
      refine List.mem_filter.mpr ⟨happs, ?_⟩
      by_contra hs
      have hsome0 : (getMap m0 app.id).isSome := by
        cases hh : getMap m0 app.id with
        | none => exact absurd (by simp [hh]) hs
        | some v => rfl
      have := @foldl_autoCatStep_isSome (fs0, m0) app.id uncat1 hsome0
      rw [← hrdef] at this
      rw [Option.isNone_iff_eq_none] at hnone
      rw [hnone] at this
      exact absurd this (by simp)
    rcases autoCat_fold_post uncat1 (fs0, m0) app hmem1 with hsome | hnoop
    · rw [← hrdef] at hsome
      rw [Option.isNone_iff_eq_none] at hnone
      rw [hnone] at hsome
      exact absurd hsome (by simp)
    · rw [← hrdef] at hnoop
      exact stepNoop_apply hnoop r.2
  have hfold2 : (apps.filter (fun a => (getMap r.2 a.id).isNone)).foldl
      autoCatStep (r.1, r.2) = (r.1, r.2) := foldl_fixed hfix
  simp only [autoCategorizeNewApps, hm1]
  rw [hfold2]

/-! ### Per-operation preservation of GoodStore -/

theorem removeStage_ids (appId : String) (fromId : Option String)
    (fs : List LaunchmatFolder) :
    (removeStage appId fromId fs).map (fun f => f.id) = fs.map (fun f => f.id) := by
  cases fromId with
  | none => rfl
  | some fid =>
      by_cases h : fid = ""
      · simp [removeStage, h]
      · simp only [removeStage, if_neg h]
        exact map_updateFirst _ _ (fun x => rfl)

theorem addStage_ids (appId toId : String) (fs : List LaunchmatFolder) :
    (addStage appId toId fs).map (fun f => f.id) = fs.map (fun f => f.id) := by
  refine map_updateFirst _ _ (fun x => ?_)
  by_cases h : appId ∈ x.applicationIds <;> simp [h]

theorem removeStage_appCount_ne {a appId : String} (fromId : Option String)
    (fs : List LaunchmatFolder) (hne : a ≠ appId) :
    appCount a (removeStage appId fromId fs) = appCount a fs := by
  cases fromId with
  | none => rfl
  | some fid =>
      by_cases h : fid = ""
      · simp [removeStage, h]
      · simp only [removeStage, if_neg h]
        cases hfind : fs.find? (fun f => decide (f.id = fid)) with
        | none => rw [updateFirst_of_find?_none hfind]
        | some x =>
            have hcnt := countP_updateFirst
              (g := fun f => { f with
                applicationIds := f.applicationIds.filter (fun y => decide (y ≠ appId)) })
              (fun f => decide (a ∈ f.applicationIds)) hfind
            have hmem : (a ∈ x.applicationIds.filter (fun y => decide (y ≠ appId)))
                ↔ a ∈ x.applicationIds := by
              simp [List.mem_filter, hne]
            simp only [decide_eq_true_eq] at hcnt
            by_cases hax : a ∈ x.applicationIds
            · rw [if_pos hax, if_pos (hmem.mpr hax)] at hcnt
              simp only [appCount]
              omega
            · rw [if_neg hax, if_neg (fun hh => hax (hmem.mp hh))] at hcnt
              simp only [appCount]
              omega

theorem addStage_appCount_ne {a appId : String} (toId : String)
    (fs : List LaunchmatFolder) (hne : a ≠ appId) :
    appCount a (addStage appId toId fs) = appCount a fs := by
  simp only [addStage]
  cases hfind : fs.find? (fun f => decide (f.id = toId)) with
  | none => rw [updateFirst_of_find?_none hfind]
  | some x =>
      have hcnt := countP_updateFirst
        (g := fun f => if appId ∈ f.applicationIds then f
          else { f with applicationIds := f.applicationIds ++ [appId] })
        (fun f => decide (a ∈ f.applicationIds)) hfind
      have hmem : (a ∈ (if appId ∈ x.applicationIds then x
          else { x with applicationIds := x.applicationIds ++ [appId] }).applicationIds)
          ↔ a ∈ x.applicationIds := by
        by_cases hax : appId ∈ x.applicationIds
        · simp [hax]
        · simp [hax, hne]
      simp only [decide_eq_true_eq] at hcnt
      by_cases hax : a ∈ x.applicationIds
      · rw [if_pos hax, if_pos (hmem.mpr hax)] at hcnt
        simp only [appCount]
        omega
      · rw [if_neg hax, if_neg (fun hh => hax (hmem.mp hh))] at hcnt
        simp only [appCount]
        omega

theorem removeStage_appCount_self {appId : String} {fromId : Option String}
    {fs : List LaunchmatFolder}
    (hex : exclusiveMembership fs)
    (hnd : (fs.map (fun f => f.id)).Nodup)
    (hfrom : ∀ f ∈ fs, appId ∈ f.applicationIds → fromId = some f.id ∧ f.id ≠ "") :
    appCount appId (removeStage appId fromId fs) = 0 := by
  cases fromId with
  | none =>
      refine appCount_eq_zero (fun f hf hmem => ?_)
      exact Option.noConfusion (hfrom f hf hmem).1
  | some fid =>
      by_cases h0 : fid = ""
      · simp only [removeStage, if_pos h0]
        refine appCount_eq_zero (fun f hf hmem => ?_)
        obtain ⟨heq, hneq⟩ := hfrom f hf hmem
        exact hneq ((Option.some_inj.mp heq).symm.trans h0)
      · simp only [removeStage, if_neg h0]
        cases hfind : fs.find? (fun f => decide (f.id = fid)) with
        | none =>
            rw [updateFirst_of_find?_none hfind]
            refine appCount_eq_zero (fun f hf hmem => ?_)
            have hfid : f.id = fid := (Option.some_inj.mp (hfrom f hf hmem).1).symm
            have := List.find?_eq_none.mp hfind f hf
            simp [hfid] at this
        | some x =>
            have hxid : x.id = fid := by
              have := List.find?_some hfind
              simpa using this
            have hxmem := List.mem_of_find?_eq_some hfind
            have hcnt := countP_updateFirst
              (g := fun f => { f with
                applicationIds := f.applicationIds.filter (fun y => decide (y ≠ appId)) })
              (fun f => decide (appId ∈ f.applicationIds)) hfind
            have hfilt : appId ∉ x.applicationIds.filter (fun y => decide (y ≠ appId)) := by
              simp [List.mem_filter]
            simp only [decide_eq_true_eq] at hcnt
            by_cases hin : appId ∈ x.applicationIds
            · have h1 : 0 < appCount appId fs :=
                List.countP_pos_iff.mpr ⟨x, hxmem, by simp [hin]⟩
              have h2 := hex appId
              rw [if_pos hin, if_neg hfilt] at hcnt
              simp only [appCount] at h1 h2 ⊢
              omega
            · have hz : appCount appId fs = 0 := by
                refine appCount_eq_zero (fun f hf hmem => ?_)
                have hfid : f.id = fid := (Option.some_inj.mp (hfrom f hf hmem).1).symm
                have : f = x :=
                  List.inj_on_of_nodup_map hnd hf hxmem (by rw [hfid, hxid])
                exact hin (this ▸ hmem)
              rw [if_neg hin, if_neg hfilt] at hcnt
              simp only [appCount] at hz ⊢
              omega

theorem addStage_appCount_self {appId : String} (toId : String)
    {fs : List LaunchmatFolder} (h0 : appCount appId fs = 0) :
    appCount appId (addStage appId toId fs) ≤ 1 := by
  simp only [addStage]
  cases hfind : fs.find? (fun f => decide (f.id = toId)) with
  | none => rw [updateFirst_of_find?_none hfind, h0]; omega
  | some x =>
      have hxmem := List.mem_of_find?_eq_some hfind
      have hnotin : appId ∉ x.applicationIds := by
        intro hin
        have : 0 < appCount appId fs :=
          List.countP_pos_iff.mpr ⟨x, hxmem, by simp [hin]⟩
        omega
      have hcnt := countP_updateFirst
        (g := fun f => if appId ∈ f.applicationIds then f
          else { f with applicationIds := f.applicationIds ++ [appId] })
        (fun f => decide (appId ∈ f.applicationIds)) hfind
      have hpush : appId ∈ (if appId ∈ x.applicationIds then x
          else { x with applicationIds := x.applicationIds ++ [appId] }).applicationIds := by
        simp [hnotin]
      simp only [decide_eq_true_eq] at hcnt
      rw [if_neg hnotin, if_pos hpush] at hcnt
      simp only [appCount] at h0 ⊢
      omega

/-- moveAppToFolder preserves well-formedness when fromFolderId names the
folder actually containing the app (or the app is in no folder, in which case
any fromFolderId will do). -/
theorem moveAppToFolder_good {s : Store} {appId : String} {fromId : Option String}
    {toId now : String}
    (hgood : GoodStore s)
    (hfrom : ∀ f ∈ foldersOf s now, appId ∈ f.applicationIds →
      fromId = some f.id ∧ f.id ≠ "") :
    GoodStore (moveAppToFolder appId fromId toId now s) := by
  intro now2
  obtain ⟨hex, hnd⟩ := hgood now
  have hres : foldersOf (moveAppToFolder appId fromId toId now s) now2
      = addStage appId toId (removeStage appId fromId (foldersOf s now)) := rfl
  constructor
  · intro a
    rw [hres]
    by_cases ha : a = appId
    · subst ha
      exact addStage_appCount_self toId (removeStage_appCount_self hex hnd hfrom)
    · rw [addStage_appCount_ne toId _ ha, removeStage_appCount_ne fromId _ ha]
      exact hex a
  · rw [hres, addStage_ids, removeStage_ids]
    exact hnd

/-- createFolder preserves well-formedness when the generated id is fresh. -/
theorem createFolder_good {s : Store} {name color icon tsId now : String}
    (hgood : GoodStore s)
    (hfresh : ("folder_" ++ tsId) ∉ (foldersOf s now).map (fun f => f.id)) :
    GoodStore (createFolder name color icon tsId now s).1 := by
  intro now2
  obtain ⟨hex, hnd⟩ := hgood now
  have hres : foldersOf (createFolder name color icon tsId now s).1 now2
      = foldersOf s now ++ [{ id := "folder_" ++ tsId, name := name, color := color, icon := icon, applicationIds := [], position := (foldersOf s now).length, createdAt := now }] := rfl
  constructor
  · intro a
    rw [hres, appCount_append]
    have h2 : ∀ g : LaunchmatFolder, g.applicationIds = [] → appCount a [g] = 0 := by
      intro g hg
      simp [appCount, hg]
    rw [h2 _ rfl]
    have := hex a
    omega
  · rw [hres, List.map_append, List.map_cons]
    rw [List.nodup_append]
    exact ⟨hnd, by simp, by simpa [List.disjoint_singleton] using hfresh⟩

/-- deleteFolder preserves well-formedness unconditionally. -/
theorem deleteFolder_good {s : Store} (folderId now : String)
    (hgood : GoodStore s) : GoodStore (deleteFolder folderId now s) := by
  by_cases htgt : ∃ f ∈ foldersOf s now, f.id = folderId
  · obtain ⟨x, hx, hxid⟩ := htgt
    obtain ⟨p, q, hpq⟩ := List.append_of_mem hx
    have hgf : GoodFolders (p ++ x :: q) := by rw [← hpq]; exact hgood now
    have hsides := nodup_decomp_not_mem hgf.2
    have hpne : ∀ f ∈ p, f.id ≠ folderId := fun f hf => hxid ▸ hsides.1 f hf
    by_cases hoth : ∃ g ∈ foldersOf s now, g.id = "folder_other"
    · by_cases hself : folderId = "folder_other"
      · subst hself
        have hdel := deleteFolder_decomp_self_other hpq hxid hpne
        rw [hdel]
        intro now2
        exact goodFolders_of_erase hgf
      · obtain ⟨o, F2, hdel, -, -, -, hgood2⟩ :=
          deleteFolder_target_exists (hgood now).2 hx hxid hoth hself
        rw [hdel]
        intro now2
        exact hgood2 (hgood now)
    · have hno : ∀ f ∈ p ++ x :: q, f.id ≠ "folder_other" :=
        fun f hf h => hoth ⟨f, by rw [hpq]; exact hf, h⟩
      have hdel := deleteFolder_decomp_no_other hpq hxid hpne hno
      rw [hdel]
      intro now2
      exact goodFolders_of_erase hgf
  · have hnone : ∀ f ∈ foldersOf s now, f.id ≠ folderId :=
      fun f hf h => htgt ⟨f, hf, h⟩
    rw [deleteFolder_no_target hnone]
    exact hgood

/-- The categorization fold preserves exclusivity and folder ids when the
processed applications have distinct ids none of which already sits in a
folder. -/
theorem foldl_autoCatStep_goodFolders :
    ∀ (l : List Application) (fs : List LaunchmatFolder) (m : Mappings),
      exclusiveMembership fs →
      ((l.map (fun a => a.id)).Nodup) →
      (∀ app ∈ l, appCount app.id fs = 0) →
      exclusiveMembership ((l.foldl autoCatStep (fs, m)).1) ∧
      ((l.foldl autoCatStep (fs, m)).1).map (fun f => f.id) = fs.map (fun f => f.id) := by
  intro l
  induction l with
  | nil => intro fs m hex _ _; exact ⟨hex, rfl⟩
  | cons x l ih =>
      intro fs m hex hndl h0
      rw [List.foldl_cons]
      simp only [List.map_cons, List.nodup_cons] at hndl
      have hx0 : appCount x.id fs = 0 := h0 x (by simp)
      cases hfind : fs.find? (fun f => decide (f.id = getCategoryForApp x fs)) with
      | none =>
          have hstep : autoCatStep (fs, m) x = (fs, m) := by
            simp only [autoCatStep, hfind]
          rw [hstep]
          exact ih fs m hex hndl.2
            (fun app happ => h0 app (by simp [happ]))
      | some tf =>
          have htfmem := List.mem_of_find?_eq_some hfind
          have hnotin : x.id ∉ tf.applicationIds := by
            intro hin
            have : 0 < appCount x.id fs :=
              List.countP_pos_iff.mpr ⟨tf, htfmem, by simp [hin]⟩
            omega
          have hstep : autoCatStep (fs, m) x
              = (updateFirst (fun f => decide (f.id = getCategoryForApp x fs))
                  (fun f => { f with applicationIds := f.applicationIds ++ [x.id] }) fs,
                 setMap m x.id (getCategoryForApp x fs)) := by
            simp only [autoCatStep, hfind, hnotin, ite_false]
          rw [hstep]
          set fs2 := updateFirst (fun f => decide (f.id = getCategoryForApp x fs))
            (fun f => { f with applicationIds := f.applicationIds ++ [x.id] }) fs with hfs2
          have hcnt := fun (a : String) => countP_updateFirst
            (g := fun f => { f with applicationIds := f.applicationIds ++ [x.id] })
            (fun f => decide (a ∈ f.applicationIds)) hfind
          have hids2 : fs2.map (fun f => f.id) = fs.map (fun f => f.id) :=
            map_updateFirst _ _ (fun f => rfl)
          have hex2 : exclusiveMembership fs2 := by
            intro a
            have hca := hcnt a
            simp only [decide_eq_true_eq] at hca
            rw [← hfs2] at hca
            by_cases ha : a = x.id
            · subst ha
              rw [if_neg hnotin, if_pos (by simp)] at hca
              simp only [appCount] at hx0 ⊢
              omega
            · have hmm : (a ∈ tf.applicationIds ++ [x.id]) ↔ a ∈ tf.applicationIds := by
                simp [ha]
              by_cases hax : a ∈ tf.applicationIds
              · rw [if_pos hax, if_pos (hmm.mpr hax)] at hca
                have := hex a
                simp only [appCount] at this ⊢
                omega
              · rw [if_neg hax, if_neg (fun hh => hax (hmm.mp hh))] at hca
                have := hex a
                simp only [appCount] at this ⊢
                omega
          have h02 : ∀ app ∈ l, appCount app.id fs2 = 0 := by
            intro app happ
            have hne : app.id ≠ x.id := by
              intro heq
              exact hndl.1 (heq ▸ List.mem_map_of_mem _ happ)
            have hca := hcnt app.id
            simp only [decide_eq_true_eq] at hca
            rw [← hfs2] at hca
            have hmm : (app.id ∈ tf.applicationIds ++ [x.id]) ↔ app.id ∈ tf.applicationIds := by
              simp [hne]
            have h0app := h0 app (by simp [happ])
            by_cases hax : app.id ∈ tf.applicationIds
            · rw [if_pos hax, if_pos (hmm.mpr hax)] at hca
              simp only [appCount] at h0app ⊢
              omega
            · rw [if_neg hax, if_neg (fun hh => hax (hmm.mp hh))] at hca
              simp only [appCount] at h0app ⊢
              omega
          obtain ⟨hexr, hidsr⟩ := ih fs2 (setMap m x.id (getCategoryForApp x fs)) hex2
            hndl.2 h02
          exact ⟨hexr, hidsr.trans hids2⟩

/-- autoCategorizeNewApps preserves well-formedness when the unmapped
applications have distinct ids and sit in no folder yet. -/
theorem autoCategorize_good {s : Store} {apps : List Application} {now : String}
    (hgood : GoodStore s)
    (hndapps : (((apps.filter (fun a => (getMap (getMappings s) a.id).isNone)).map
      (fun a => a.id)).Nodup))
    (hnew : ∀ app ∈ apps.filter (fun a => (getMap (getMappings s) a.id).isNone),
      appCount app.id (foldersOf s now) = 0) :
    GoodStore ((autoCategorizeNewApps apps (loadFoldersPure s now) s).2) := by
  obtain ⟨hex, hnd⟩ := hgood now
  obtain ⟨hex2, hids2⟩ := foldl_autoCatStep_goodFolders
    (apps.filter (fun a => (getMap (getMappings s) a.id).isNone))
    (loadFoldersPure s now) (getMappings s) hex hndapps hnew
  intro now2
  have hres : foldersOf ((autoCategorizeNewApps apps (loadFoldersPure s now) s).2) now2
      = ((apps.filter (fun a => (getMap (getMappings s) a.id).isNone)).foldl
          autoCatStep (loadFoldersPure s now, getMappings s)).1 := rfl
  exact ⟨by rw [hres]; exact hex2, by rw [hres, hids2]; exact hnd⟩

/-! ### Operation traces over the store -/

/-- One mutating store operation, carrying the timestamps the source obtains
from Date at call time. -/
inductive StoreOp where
  | move (appId : String) (fromId : Option String) (toId : String) (now : String)
  | create (name color icon tsId now : String)
  | del (folderId : String) (now : String)
  | autoCat (apps : List Application) (now : String)

/-- Application of one operation to the store, on the successful-write
path. The autoCat case passes the loaded folders as existingFolders, as the
orchestrator does. -/
def applyOp : StoreOp → Store → Store
  | .move appId fromId toId now, s => moveAppToFolder appId fromId toId now s
  | .create name color icon tsId now, s => (createFolder name color icon tsId now s).1
  | .del folderId now, s => deleteFolder folderId now s
  | .autoCat apps now, s => (autoCategorizeNewApps apps (loadFoldersPure s now) s).2

/-- Sequential application of a list of operations. -/
def applyOps : List StoreOp → Store → Store
  | [], s => s
  | op :: ops, s => applyOps ops (applyOp op s)

/-- Side condition of one operation: a move must name the folder actually
containing the app (vacuous when the app is in no folder); a create must draw
a fresh id; a delete is unconditional; an auto-categorize must be given
distinct-id applications whose unmapped members sit in no folder. -/
def opOk : StoreOp → Store → Prop
  | .move appId fromId _ now, s =>
      ∀ f ∈ foldersOf s now, appId ∈ f.applicationIds →
        fromId = some f.id ∧ f.id ≠ ""
  | .create _ _ _ tsId now, s =>
      ("folder_" ++ tsId) ∉ (foldersOf s now).map (fun f => f.id)
  | .del _ _, _ => True
  | .autoCat apps now, s =>
      (((apps.filter (fun a => (getMap (getMappings s) a.id).isNone)).map
        (fun a => a.id)).Nodup) ∧
      ∀ app ∈ apps.filter (fun a => (getMap (getMappings s) a.id).isNone),
        appCount app.id (foldersOf s now) = 0

/-- Pointwise side conditions along a trace. -/
def okTrace : List StoreOp → Store → Prop
  | [], _ => True
  | op :: ops, s => opOk op s ∧ okTrace ops (applyOp op s)

theorem applyOp_good {op : StoreOp} {s : Store}
    (hgood : GoodStore s) (hok : opOk op s) : GoodStore (applyOp op s) := by
  cases op with
  | move appId fromId toId now => exact moveAppToFolder_good hgood hok
  | create name color icon tsId now => exact createFolder_good hgood hok
  | del folderId now => exact deleteFolder_good folderId now hgood
  | autoCat apps now => exact autoCategorize_good hgood hok.1 hok.2

theorem applyOps_good : ∀ (ops : List StoreOp) (s : Store),
    GoodStore s → okTrace ops s → GoodStore (applyOps ops s) := by
  intro ops
  induction ops with
  | nil => intro s h _; exact h
  | cons op ops ih =>
      intro s hgood hok
      exact ih (applyOp op s) (applyOp_good hgood hok.1) hok.2

theorem okTrace_append_left : ∀ (pre suf : List StoreOp) (s : Store),
    okTrace (pre ++ suf) s → okTrace pre s := by
  intro pre
  induction pre with
  | nil => intro suf s _; trivial
  | cons op pre ih =>
      intro suf s h
      exact ⟨h.1, ih suf (applyOp op s) h.2⟩

/-- C1 (amended): starting from a well-formed store (membership exclusivity
plus duplicate-free folder ids), after every prefix of a trace of
moveAppToFolder, createFolder, deleteFolder and autoCategorizeNewApps
operations whose side conditions hold, every application id still occurs in
the applicationIds of at most one folder. The side conditions are exactly
what the counterexample forces: a moveAppToFolder whose fromFolderId is null
or differs from the folder actually containing the app (and an
autoCategorizeNewApps over an unmapped app already sitting in some folder)
can duplicate a membership, so the move must name the containing folder and
the unmapped apps must be new. -/
theorem store_ops_preserve_exclusivity (ops : List StoreOp) (s : Store)
    (hgood : GoodStore s) (hok : okTrace ops s) :
    ∀ pre suf : List StoreOp, ops = pre ++ suf →
      ∀ now, exclusiveMembership (foldersOf (applyOps pre s) now) := by
  intro pre suf hsplit now
  subst hsplit
  exact (applyOps_good pre s hgood (okTrace_append_left pre suf s hok) now).1

/-- C1 witness: the trace of the spec move scenario run from the seeded
default store, with all hypotheses discharged concretely. -/
theorem store_ops_preserve_exclusivity_witness :
    exclusiveMembership (foldersOf (applyOps
      [StoreOp.move "app1" (some "folder_development") "folder_games" "t1"]
      (seedStore "t0")) "t2") := by
  have hgood : GoodStore (seedStore "t0") := by
    intro now
    have hred : foldersOf (seedStore "t0") now = createDefaultFolders "t0" := rfl
    constructor
    · exact exclusive_of_empty (by rw [hred]; decide)
    · rw [hred]
      decide
  have hok : okTrace [StoreOp.move "app1" (some "folder_development") "folder_games" "t1"]
      (seedStore "t0") := by
    refine ⟨?_, trivial⟩
    show ∀ f ∈ createDefaultFolders "t0", "app1" ∈ f.applicationIds →
      some "folder_development" = some f.id ∧ f.id ≠ ""
    decide
  exact store_ops_preserve_exclusivity
    [StoreOp.move "app1" (some "folder_development") "folder_games" "t1"]
    (seedStore "t0") hgood hok
    [StoreOp.move "app1" (some "folder_development") "folder_games" "t1"] []
    (by simp) "t2"

/-! ### Position density under createFolder and reorderFolders -/

/-- Index of the first occurrence of a string in a list (length when
absent). -/
def idxOfStr (y : String) : List String → Nat
  | [] => 0
  | x :: rest => if x = y then 0 else idxOfStr y rest + 1

theorem updateFirst_eq_map_of_nodup {x : String}
    {g : LaunchmatFolder → LaunchmatFolder} {fs : List LaunchmatFolder}
    (hnd : (fs.map (fun f => f.id)).Nodup) :
    updateFirst (fun f => decide (f.id = x)) g fs
      = fs.map (fun f => if f.id = x then g f else f) := by
  induction fs with
  | nil => rfl
  | cons a l ih =>
      simp only [List.map_cons, List.nodup_cons] at hnd
      by_cases ha : a.id = x
      · rw [updateFirst_cons_pos _ (by simp [ha])]
        have hrest : ∀ f ∈ l, (if f.id = x then g f else f) = f := by
          intro f hf
          have : f.id ≠ x := by
            intro hfx
            exact hnd.1 (by rw [ha, ← hfx]; exact List.mem_map_of_mem _ hf)
          simp [this]
        rw [List.map_cons, if_pos ha, List.map_congr_left hrest]
        simp
      · rw [updateFirst_cons_neg _ (by simp [ha]), List.map_cons, if_neg ha, ih hnd.2]

theorem map_idxOfStr_self : ∀ {ids : List String}, ids.Nodup →
    ids.map (fun y => idxOfStr y ids) = List.range ids.length := by
  intro ids
  induction ids with
  | nil => intro _; rfl
  | cons x rest ih =>
      intro hnd
      rw [List.nodup_cons] at hnd
      have hhead : idxOfStr x (x :: rest) = 0 := by simp [idxOfStr]
      have htail : ∀ y ∈ rest, idxOfStr y (x :: rest) = idxOfStr y rest + 1 := by
        intro y hy
        have : x ≠ y := fun h => hnd.1 (h ▸ hy)
        simp [idxOfStr, this]
      rw [List.map_cons, hhead]
      have : rest.map (fun y => idxOfStr y (x :: rest))
          = (rest.map (fun y => idxOfStr y rest)).map (fun n => n + 1) := by
        rw [List.map_map]
        exact List.map_congr_left (fun y hy => htail y hy)
      rw [this, ih hnd.2, List.length_cons, List.range_succ_eq_map]

theorem applyOrder_eq_map : ∀ (ids : List String) (i : Nat) (fs : List LaunchmatFolder),
    ids.Nodup → (fs.map (fun f => f.id)).Nodup →
    applyOrder i ids fs = fs.map (fun f =>
      if f.id ∈ ids then { f with position := i + idxOfStr f.id ids } else f) := by
  intro ids
  induction ids with
  | nil =>
      intro i fs _ _
      simp [applyOrder]
  | cons x rest ih =>
      intro i fs hnd hndfs
      rw [List.nodup_cons] at hnd
      simp only [applyOrder]
      rw [updateFirst_eq_map_of_nodup hndfs]
      have hids2 : ((fs.map (fun f => if f.id = x then { f with position := i } else f)).map
          (fun f => f.id)) = fs.map (fun f => f.id) := by
        rw [List.map_map]
        exact List.map_congr_left (fun f _ => by by_cases h : f.id = x <;> simp [h])
      rw [ih (i + 1) _ hnd.2 (by rw [hids2]; exact hndfs), List.map_map]
      refine List.map_congr_left (fun f _ => ?_)
      by_cases hfx : f.id = x
      · have hxr : x ∉ rest := hnd.1
        simp only [Function.comp_apply, if_pos hfx]
        have : ¬ ({ f with position := i } : LaunchmatFolder).id ∈ rest := by
          simpa [hfx] using hxr
        rw [if_neg this]
        have hmem : f.id ∈ x :: rest := by simp [hfx]
        rw [if_pos hmem]
        have hzero : idxOfStr f.id (x :: rest) = 0 := by simp [idxOfStr, hfx]
        rw [hzero]
        simp
      · simp only [Function.comp_apply, if_neg hfx]
        have hxf : ¬ (x = f.id) := fun h => hfx h.symm
        have hidx : idxOfStr f.id (x :: rest) = idxOfStr f.id rest + 1 := by
          simp [idxOfStr, hxf]
        by_cases hmem : f.id ∈ rest
        · rw [if_pos hmem, if_pos (by simp [hmem]), hidx]
          have : i + 1 + idxOfStr f.id rest = i + (idxOfStr f.id rest + 1) := by omega
          rw [this]
        · rw [if_neg hmem, if_neg (by simp [hfx, hmem])]

theorem insertByPos_perm (f : LaunchmatFolder) (l : List LaunchmatFolder) :
    (insertByPos f l).Perm (f :: l) := by
  induction l with
  | nil => exact List.Perm.refl _
  | cons g gs ih =>
      simp only [insertByPos]
      by_cases h : f.position ≤ g.position
      · rw [if_pos h]
      · rw [if_neg h]
        exact (List.Perm.cons g ih).trans (List.Perm.swap f g gs)

theorem sortByPosition_perm (l : List LaunchmatFolder) :
    (sortByPosition l).Perm l := by
  induction l with
  | nil => exact List.Perm.refl _
  | cons f fs ih =>
      exact (insertByPos_perm f (sortByPosition fs)).trans (List.Perm.cons f ih)

/-- A reorderFolders call given a permutation of the current folder ids makes
the positions exactly 0..count-1 and permutes nothing else. -/
theorem reorderFolders_dense {s : Store} {ids : List String} {now : String}
    (hnd : ((foldersOf s now).map (fun f => f.id)).Nodup)
    (hperm : ids.Perm ((foldersOf s now).map (fun f => f.id))) :
    ∀ now2, denseOrder (foldersOf (reorderFolders ids now s) now2) ∧
      ((foldersOf (reorderFolders ids now s) now2).map (fun f => f.id)).Nodup := by
  intro now2
  have hidnd : ids.Nodup := hperm.nodup_iff.mpr hnd
  have hres : foldersOf (reorderFolders ids now s) now2
      = sortByPosition (applyOrder 0 ids (foldersOf s now)) := rfl
  have happly := applyOrder_eq_map ids 0 (foldersOf s now) hidnd hnd
  have hcomplete : ∀ f ∈ foldersOf s now, f.id ∈ ids :=
    fun f hf => hperm.mem_iff.mpr (List.mem_map_of_mem _ hf)
  have happly2 : applyOrder 0 ids (foldersOf s now)
      = (foldersOf s now).map (fun f => { f with position := idxOfStr f.id ids }) := by
    rw [happly]
    refine List.map_congr_left (fun f hf => ?_)
    rw [if_pos (hcomplete f hf)]
    have : 0 + idxOfStr f.id ids = idxOfStr f.id ids := by omega
    rw [this]
  have hsortperm := sortByPosition_perm (applyOrder 0 ids (foldersOf s now))
  have hposmap : ((applyOrder 0 ids (foldersOf s now)).map (fun f => f.position))
      = ((foldersOf s now).map (fun f => f.id)).map (fun y => idxOfStr y ids) := by
    rw [happly2, List.map_map, List.map_map]
    exact List.map_congr_left (fun f _ => rfl)
  have hidmap : ((applyOrder 0 ids (foldersOf s now)).map (fun f => f.id))
      = (foldersOf s now).map (fun f => f.id) := by
    rw [happly2, List.map_map]
    exact List.map_congr_left (fun f _ => rfl)
  constructor
  · unfold denseOrder
    have hlen : (foldersOf (reorderFolders ids now s) now2).length
        = ids.length := by
      rw [hres, hsortperm.length_eq, happly2, List.length_map]
      have := hperm.length_eq
      rw [List.length_map] at this
      omega
    rw [hlen, hres]
    refine (hsortperm.map (fun f => f.position)).trans ?_
    rw [hposmap]
    refine ((hperm.map (fun y => idxOfStr y ids)).symm).trans ?_
    rw [map_idxOfStr_self hidnd]
  · rw [hres]
    have : ((sortByPosition (applyOrder 0 ids (foldersOf s now))).map (fun f => f.id)).Perm
        ((applyOrder 0 ids (foldersOf s now)).map (fun f => f.id)) := hsortperm.map _
    rw [hidmap] at this
    exact this.nodup_iff.mpr hnd

/-- createFolder keeps positions dense: the new folder takes position equal
to the previous count. -/
theorem createFolder_dense {s : Store} {name color icon tsId now : String}
    (hdense : denseOrder (foldersOf s now)) :
    ∀ now2, denseOrder (foldersOf (createFolder name color icon tsId now s).1 now2) := by
  intro now2
  have hres : foldersOf (createFolder name color icon tsId now s).1 now2
      = foldersOf s now ++ [{ id := "folder_" ++ tsId, name := name, color := color, icon := icon, applicationIds := [], position := (foldersOf s now).length, createdAt := now }] := rfl
  unfold denseOrder at hdense ⊢
  rw [hres, List.length_append, List.map_append, List.map_cons, List.map_nil,
    List.length_cons, List.length_nil]
  have : (foldersOf s now).length + (0 + 1) = (foldersOf s now).length + 1 := by omega
  rw [this, List.range_succ]
  exact hdense.append_right _

/-- Fresh-id createFolder keeps folder ids duplicate-free. -/
theorem createFolder_ids_nodup {s : Store} {name color icon tsId now : String}
    (hnd : ((foldersOf s now).map (fun f => f.id)).Nodup)
    (hfresh : ("folder_" ++ tsId) ∉ (foldersOf s now).map (fun f => f.id)) :
    ∀ now2, ((foldersOf (createFolder name color icon tsId now s).1 now2).map
      (fun f => f.id)).Nodup := by
  intro now2
  have hres : foldersOf (createFolder name color icon tsId now s).1 now2
      = foldersOf s now ++ [{ id := "folder_" ++ tsId, name := name, color := color, icon := icon, applicationIds := [], position := (foldersOf s now).length, createdAt := now }] := rfl
  rw [hres, List.map_append, List.map_cons, List.nodup_append]
  exact ⟨hnd, by simp, by simpa [List.disjoint_singleton] using hfresh⟩

/-! ### Position-density traces -/

/-- One folder-layout operation of the C2 trace: create or reorder. -/
inductive PosOp where
  | create (name color icon tsId now : String)
  | reorder (ids : List String) (now : String)

/-- Application of one layout operation on the successful-write path. -/
def applyPosOp : PosOp → Store → Store
  | .create name color icon tsId now, s => (createFolder name color icon tsId now s).1
  | .reorder ids now, s => reorderFolders ids now s

/-- Sequential application of layout operations. -/
def applyPosOps : List PosOp → Store → Store
  | [], s => s
  | op :: ops, s => applyPosOps ops (applyPosOp op s)

/-- Side condition of one layout operation: a create must draw a fresh id and
a reorder must be handed the complete, duplicate-free set of current folder
ids (a permutation of them). -/
def posOpOk : PosOp → Store → Prop
  | .create _ _ _ tsId now, s =>
      ("folder_" ++ tsId) ∉ (foldersOf s now).map (fun f => f.id)
  | .reorder ids now, s => ids.Perm ((foldersOf s now).map (fun f => f.id))

/-- Pointwise side conditions along a layout trace. -/
def okPosTrace : List PosOp → Store → Prop
  | [], _ => True
  | op :: ops, s => posOpOk op s ∧ okPosTrace ops (applyPosOp op s)

/-- Dense, duplicate-free folder layout at every read time. -/
def DenseStore (s : Store) : Prop :=
  ∀ now, denseOrder (foldersOf s now) ∧
    ((foldersOf s now).map (fun f => f.id)).Nodup

theorem applyPosOp_dense {op : PosOp} {s : Store}
    (h : DenseStore s) (hok : posOpOk op s) : DenseStore (applyPosOp op s) := by
  cases op with
  | create name color icon tsId now =>
      intro now2
      exact ⟨createFolder_dense (h now).1 now2,
        createFolder_ids_nodup (h now).2 hok now2⟩
  | reorder ids now =>
      intro now2
      exact reorderFolders_dense (h now).2 hok now2

theorem applyPosOps_dense : ∀ (ops : List PosOp) (s : Store),
    DenseStore s → okPosTrace ops s → DenseStore (applyPosOps ops s) := by
  intro ops
  induction ops with
  | nil => intro s h _; exact h
  | cons op ops ih =>
      intro s h hok
      exact ih (applyPosOp op s) (applyPosOp_dense h hok.1) hok.2

theorem okPosTrace_append_left : ∀ (pre suf : List PosOp) (s : Store),
    okPosTrace (pre ++ suf) s → okPosTrace pre s := by
  intro pre
  induction pre with
  | nil => intro suf s _; trivial
  | cons op pre ih =>
      intro suf s h
      exact ⟨h.1, ih suf (applyPosOp op s) h.2⟩

theorem seedStore_dense (now0 : String) : DenseStore (seedStore now0) := by
  intro now
  have hpos : (foldersOf (seedStore now0) now).map (fun f => f.position)
      = [0, 1, 2, 3, 4, 5, 6, 7] := rfl
  have hlen : (foldersOf (seedStore now0) now).length = 8 := rfl
  have hids : (foldersOf (seedStore now0) now).map (fun f => f.id)
      = ["folder_productivity", "folder_development", "folder_graphics",
         "folder_entertainment", "folder_utilities", "folder_games",
         "folder_communication", "folder_other"] := rfl
  constructor
  · unfold denseOrder
    rw [hpos, hlen]
    decide
  · rw [hids]
    decide

/-- C2 (amended): starting from the seeded default state, after every prefix
of a trace of createFolder operations with fresh ids and reorderFolders
operations given the complete duplicate-free set of current folder ids, the
multiset of positions over the stored folders is exactly 0..count-1.
deleteFolder is excluded: it does not renumber positions and leaves a gap
(see the counterexample), which only a subsequent full reorder repairs. -/
theorem create_reorder_preserve_density (now0 : String) (ops : List PosOp)
    (hok : okPosTrace ops (seedStore now0)) :
    ∀ pre suf : List PosOp, ops = pre ++ suf →
      ∀ now, denseOrder (foldersOf (applyPosOps pre (seedStore now0)) now) := by
  intro pre suf hsplit now
  subst hsplit
  exact (applyPosOps_dense pre (seedStore now0) (seedStore_dense now0)
    (okPosTrace_append_left pre suf (seedStore now0) hok) now).1

/-- C2 witness: a concrete create followed by a complete reorder, run from
the seeded default store, with all side conditions discharged concretely. -/
theorem create_reorder_preserve_density_witness :
    denseOrder (foldersOf (applyPosOps
      [PosOp.create "Work" "#123456" "star" "42" "t1",
       PosOp.reorder ["folder_other", "folder_42", "folder_productivity",
         "folder_development", "folder_graphics", "folder_entertainment",
         "folder_utilities", "folder_games", "folder_communication"] "t2"]
      (seedStore "t0")) "t3") := by
  have hok : okPosTrace
      [PosOp.create "Work" "#123456" "star" "42" "t1",
       PosOp.reorder ["folder_other", "folder_42", "folder_productivity",
         "folder_development", "folder_graphics", "folder_entertainment",
         "folder_utilities", "folder_games", "folder_communication"] "t2"]
      (seedStore "t0") := by
    refine ⟨?_, ?_, trivial⟩
    · show ("folder_" ++ "42")
        ∉ (foldersOf (seedStore "t0") "t1").map (fun f => f.id)
      decide
    · show (["folder_other", "folder_42", "folder_productivity",
        "folder_development", "folder_graphics", "folder_entertainment",
        "folder_utilities", "folder_games", "folder_communication"]).Perm
        ((foldersOf (applyPosOp (PosOp.create "Work" "#123456" "star" "42" "t1")
          (seedStore "t0")) "t2").map (fun f => f.id))
      decide
  exact create_reorder_preserve_density "t0" _ hok _ [] (by simp) "t3"

end Launchmat
